import Mathlib

/-!
Verification development for the portfoliomap backend allocation store
(src/backend/app/portfolio_store.py) and its history aggregation routine
(src/backend/app/routes_portfolios.py).

Modelling conventions.

Python dicts are modelled as insertion-ordered association lists
(abbrev Dict) with lookup returning the first matching key, assignment
updating the first matching entry in place or appending a fresh one,
and deletion removing the key.  These coincide with CPython dict
semantics whenever keys are unique, which every dict reachable from
the store maintains.

Python aware/naive datetimes are modelled by PyDateTime: a wall-clock
reading plus an optional tzinfo UTC offset (none = naive).  Comparison
of aware datetimes compares instants (wall minus offset); datetime
equality between an aware and a naive value is False in Python, which
pyDtEq mirrors.  ISO-8601 serialisation round-trips aware and naive
datetimes exactly, so persisted date cells are modelled by the
PyDateTime they denote, with Option marking a missing or unparsable
cell.

Python floats are idealised as rationals; round(x, 6) is modelled by
round-half-to-even on the exact rational, matching the float behaviour
of the builtin round away from representation edge cases.
-/

set_option autoImplicit false
set_option linter.unusedSectionVars false

namespace PortfolioMap

instance decEqExcept {ε α : Type} [DecidableEq ε] [DecidableEq α] :
    DecidableEq (Except ε α) := fun a b =>
  match a, b with
  | .error x, .error y =>
      if h : x = y then isTrue (by rw [h])
      else isFalse (fun hc => h (Except.error.inj hc))
  | .ok x, .ok y =>
      if h : x = y then isTrue (by rw [h])
      else isFalse (fun hc => h (Except.ok.inj hc))
  | .error _, .ok _ => isFalse (fun hc => Except.noConfusion hc)
  | .ok _, .error _ => isFalse (fun hc => Except.noConfusion hc)

/-! ### Ordered dictionaries (Python dict) -/

abbrev Dict (κ V : Type) := List (κ × V)

variable {κ V : Type} [DecidableEq κ]

/-- Lookup: d.get(k) / d[k], returning the first entry with the key. -/
def dlookup : Dict κ V → κ → Option V
  | [], _ => none
  | (k, v) :: rest, key => if k = key then some v else dlookup rest key

/-- Assignment: d[k] = v, updating in place or appending a fresh key. -/
def dinsert : Dict κ V → κ → V → Dict κ V
  | [], key, val => [(key, val)]
  | (k, v) :: rest, key, val =>
      if k = key then (k, val) :: rest else (k, v) :: dinsert rest key val

/-- Deletion: del d[k] / d.pop(k, None). -/
def derase (m : Dict κ V) (key : κ) : Dict κ V :=
  m.filter (fun kv => kv.1 ≠ key)

/-- Key view of the dict, in insertion order. -/
def dkeys (m : Dict κ V) : List κ := m.map Prod.fst

@[simp] theorem dlookup_nil (key : κ) : dlookup ([] : Dict κ V) key = none := rfl

@[simp] theorem dlookup_cons (k : κ) (v : V) (rest : Dict κ V) (key : κ) :
    dlookup ((k, v) :: rest) key = if k = key then some v else dlookup rest key := rfl

@[simp] theorem dkeys_nil : dkeys ([] : Dict κ V) = [] := rfl

@[simp] theorem dkeys_cons (k : κ) (v : V) (rest : Dict κ V) :
    dkeys ((k, v) :: rest) = k :: dkeys rest := rfl

theorem dlookup_dinsert (m : Dict κ V) (k : κ) (v : V) (key : κ) :
    dlookup (dinsert m k v) key = if k = key then some v else dlookup m key := by
  induction m with
  | nil => simp [dinsert]
  | cons hd tl ih =>
      obtain ⟨k', v'⟩ := hd
      by_cases h : k' = k
      · subst h
        by_cases h2 : k' = key <;> simp [dinsert, h2]
      · by_cases h2 : k' = key
        · subst h2
          simp [dinsert, h, Ne.symm h]
        · simp [dinsert, h, h2, ih]

@[simp] theorem dlookup_dinsert_self (m : Dict κ V) (k : κ) (v : V) :
    dlookup (dinsert m k v) k = some v := by
  simp [dlookup_dinsert]

theorem dlookup_dinsert_ne (m : Dict κ V) (k : κ) (v : V) (key : κ) (h : k ≠ key) :
    dlookup (dinsert m k v) key = dlookup m key := by
  simp [dlookup_dinsert, h]

theorem dkeys_dinsert (m : Dict κ V) (k : κ) (v : V) :
    dkeys (dinsert m k v) = if k ∈ dkeys m then dkeys m else dkeys m ++ [k] := by
  induction m with
  | nil => simp [dinsert]
  | cons hd tl ih =>
      obtain ⟨k', v'⟩ := hd
      by_cases h : k' = k
      · subst h
        simp [dinsert]
      · simp only [dinsert, if_neg h, dkeys_cons, List.mem_cons]
        rw [ih]
        by_cases h2 : k ∈ dkeys tl
        · simp [h2, Ne.symm h]
        · simp [h2, Ne.symm h]

theorem dkeys_dinsert_of_mem (m : Dict κ V) (k : κ) (v : V) (h : k ∈ dkeys m) :
    dkeys (dinsert m k v) = dkeys m := by
  simp [dkeys_dinsert, h]

theorem mem_dkeys_iff_isSome (m : Dict κ V) (key : κ) :
    key ∈ dkeys m ↔ (dlookup m key).isSome := by
  induction m with
  | nil => simp
  | cons hd tl ih =>
      obtain ⟨k, v⟩ := hd
      by_cases h : k = key
      · simp [h]
      · simp [h, ih, Ne.symm h]

theorem dlookup_eq_none_of_not_mem (m : Dict κ V) (key : κ) (h : key ∉ dkeys m) :
    dlookup m key = none := by
  rcases ho : dlookup m key with _ | v
  · rfl
  · exact absurd ((mem_dkeys_iff_isSome m key).2 (by simp [ho])) h

theorem dlookup_derase (m : Dict κ V) (k key : κ) :
    dlookup (derase m k) key = if key = k then none else dlookup m key := by
  induction m with
  | nil => simp [derase]
  | cons hd tl ih =>
      obtain ⟨k', v'⟩ := hd
      have step : derase ((k', v') :: tl) k =
          if k' = k then derase tl k else (k', v') :: derase tl k := by
        by_cases h : k' = k <;> simp [derase, List.filter_cons, h]
      rw [step]
      by_cases h : k' = k
      · rw [if_pos h, ih]
        by_cases h2 : key = k
        · simp [h2]
        · have hne : k' ≠ key := by rw [h]; exact fun hc => h2 hc.symm
          simp [h2, hne]
      · rw [if_neg h]
        by_cases h2 : k' = key
        · have hne : ¬ key = k := by rw [← h2]; exact h
          simp [h2, hne]
        · simp [h2, ih]

theorem dkeys_derase (m : Dict κ V) (k : κ) :
    dkeys (derase m k) = (dkeys m).filter (fun x => x ≠ k) := by
  induction m with
  | nil => simp [derase]
  | cons hd tl ih =>
      obtain ⟨k', v'⟩ := hd
      by_cases h : k' = k <;>
        simp [derase, List.filter_cons, h, dkeys] at * <;> simpa [derase, dkeys] using ih

theorem dinsert_of_not_mem (m : Dict κ V) (k : κ) (v : V) (h : k ∉ dkeys m) :
    dinsert m k v = m ++ [(k, v)] := by
  induction m with
  | nil => simp [dinsert]
  | cons hd tl ih =>
      obtain ⟨k', v'⟩ := hd
      simp only [dkeys_cons, List.mem_cons] at h
      push_neg at h
      simp [dinsert, Ne.symm h.1, ih h.2]

theorem nodup_dkeys_dinsert (m : Dict κ V) (k : κ) (v : V) (h : (dkeys m).Nodup) :
    (dkeys (dinsert m k v)).Nodup := by
  rw [dkeys_dinsert]
  by_cases hm : k ∈ dkeys m
  · simpa [hm]
  · simpa [hm, List.nodup_append] using h

theorem nodup_dkeys_derase (m : Dict κ V) (k : κ) (h : (dkeys m).Nodup) :
    (dkeys (derase m k)).Nodup := by
  rw [dkeys_derase]
  exact h.filter _

/-! ### Python datetime model -/

/-- A Python datetime: a wall-clock reading plus an optional tzinfo UTC
offset (none models a naive datetime). -/
structure PyDateTime where
  wall : Int
  tz : Option Int
deriving DecidableEq, Repr

/-- The instant an aware datetime denotes (wall reading minus UTC offset).
Only aware datetimes are ever compared inside the store. -/
def dtKey (d : PyDateTime) : Int := d.wall - d.tz.getD 0

/-- Python datetime equality: aware values compare by instant, naive values
by wall clock, and a naive value never equals an aware one. -/
def pyDtEq (a b : PyDateTime) : Bool :=
  match a.tz, b.tz with
  | none, none => a.wall == b.wall
  | some x, some y => (a.wall - x) == (b.wall - y)
  | _, _ => false

/-- Python datetime strict order on the values the store compares (all
aware, compared by instant; naive-to-naive compares wall clocks). -/
def pyDtLt (a b : PyDateTime) : Bool := dtKey a < dtKey b

/-- The aware UTC datetime produced by _timestamp(). -/
def utcNow (n : Int) : PyDateTime := ⟨n, some 0⟩

/-- PortfolioStore._normalize_datetime: default a missing value to now,
attach UTC to a naive value, convert an aware value to UTC. -/
def normalizeDatetime (now : PyDateTime) (value : Option PyDateTime) : PyDateTime :=
  let dt := value.getD now
  match dt.tz with
  | none => { dt with tz := some 0 }
  | some o => { wall := dt.wall - o, tz := some 0 }

/-- Python min over datetimes (first minimum wins), with a default for an
empty sequence. -/
def pyMinDT (xs : List PyDateTime) (dflt : PyDateTime) : PyDateTime :=
  match xs with
  | [] => dflt
  | h :: t => t.foldl (fun acc d => if pyDtLt d acc then d else acc) h

theorem pyDtEq_refl (a : PyDateTime) : pyDtEq a a = true := by
  rcases a with ⟨w, _ | o⟩ <;> simp [pyDtEq]

/-! ### Python round and sorted -/

/-- Python round-half-to-even of a rational to an integer. -/
def pyRoundInt (q : ℚ) : ℤ :=
  let f := ⌊q⌋
  let r := q - f
  if r < 1/2 then f
  else if 1/2 < r then f + 1
  else if 2 ∣ f then f else f + 1

/-- Python round(x, 6). -/
def round6 (q : ℚ) : ℚ := (pyRoundInt (q * 1000000) : ℚ) / 1000000

theorem abs_pyRoundInt_sub_le (q : ℚ) : |(pyRoundInt q : ℚ) - q| ≤ 1/2 := by
  have h0 : (0:ℚ) ≤ q - ⌊q⌋ := by
    have := Int.floor_le q
    linarith
  have h1 : q - ⌊q⌋ < 1 := by
    have := Int.lt_floor_add_one q
    push_cast at this ⊢
    linarith
  unfold pyRoundInt
  by_cases hlt : q - ⌊q⌋ < 1/2
  · simp only [if_pos hlt]
    rw [abs_le]
    constructor <;> linarith
  · simp only [if_neg hlt]
    by_cases hgt : 1/2 < q - ⌊q⌋
    · simp only [if_pos hgt]
      rw [abs_le]
      push_cast
      constructor <;> linarith
    · have heq : q - ⌊q⌋ = 1/2 := le_antisymm (not_lt.1 hgt) (not_lt.1 hlt)
      by_cases hdvd : 2 ∣ ⌊q⌋
      · simp only [if_neg hgt, if_pos hdvd]
        rw [abs_le]
        constructor <;> linarith
      · simp only [if_neg hgt, if_neg hdvd]
        rw [abs_le]
        push_cast
        constructor <;> linarith

theorem abs_round6_sub_le (q : ℚ) : |round6 q - q| ≤ 1/2000000 := by
  have h := abs_pyRoundInt_sub_le (q * 1000000)
  unfold round6
  have hrw : (pyRoundInt (q * 1000000) : ℚ) / 1000000 - q
      = ((pyRoundInt (q * 1000000) : ℚ) - q * 1000000) / 1000000 := by ring
  rw [hrw, abs_div]
  have : |(1000000:ℚ)| = 1000000 := by norm_num
  rw [this]
  rw [div_le_iff₀ (by norm_num : (0:ℚ) < 1000000)]
  linarith

@[simp] theorem round6_zero : round6 0 = 0 := by
  have : pyRoundInt 0 = 0 := by norm_num [pyRoundInt]
  simp [round6, this]

/-- Python str.strip(): drop leading and trailing whitespace.  (A
structurally recursive equivalent of String.trim, so that concrete
witnesses kernel-evaluate.) -/
def pyStrip (s : String) : String :=
  ⟨((s.data.dropWhile Char.isWhitespace).reverse.dropWhile Char.isWhitespace).reverse⟩

/-- Python str.upper() on the ticker alphabet. -/
def pyUpper (s : String) : String := ⟨s.data.map Char.toUpper⟩

/-- Code-point lexicographic strict order, as Python compares strings. -/
def charListLt : List Char → List Char → Bool
  | [], [] => false
  | [], _ :: _ => true
  | _ :: _, [] => false
  | a :: as, b :: bs =>
      if a.val < b.val then true
      else if b.val < a.val then false
      else charListLt as bs

def pyStrLe (a b : String) : Bool := !charListLt b.data a.data

/-- Python sorted on a list of strings (code-point order). -/
def pySorted (xs : List String) : List String :=
  List.insertionSort (fun a b => pyStrLe a b = true) xs

theorem mem_pySorted (xs : List String) (s : String) : s ∈ pySorted xs ↔ s ∈ xs :=
  (List.perm_insertionSort (fun a b => pyStrLe a b = true) xs).mem_iff

/-! ### AllocationEngine: symbol normalization and weight normalization -/

/-- _normalize_symbols: trimmed, upper-cased, deduplicated, sorted. -/
def normalizeSymbols (symbols : List String) : List String :=
  pySorted (((symbols.filter (fun s => pyStrip s ≠ "")).map (fun s => pyUpper (pyStrip s))).dedup)

/-- A raw weight value from the request payload; none models a value
float() cannot convert (TypeError/ValueError path). -/
abbrev RawVal := Option ℚ

/-- The float conversion with the negative clamp in
_normalize_allocations. -/
def cleanVal (v : RawVal) : ℚ :=
  match v with
  | none => 0
  | some q => if q < 0 then 0 else q

/-- The cleaned dict of _normalize_allocations: keys trimmed and
upper-cased, empty keys skipped, values coerced. -/
def cleanAllocations (raw : Dict String RawVal) : Dict String ℚ :=
  raw.foldl
    (fun acc kv =>
      let symbol := pyUpper (pyStrip kv.1)
      if symbol = "" then acc else dinsert acc symbol (cleanVal kv.2)) []

/-- Equal-split branch of _normalize_allocations: every listed symbol gets
round(1/len(symbols), 6). -/
def equalSplit (symbols : List String) : Dict String ℚ :=
  let w := round6 (1 / (symbols.length : ℚ))
  symbols.foldl (fun acc s => dinsert acc s w) []

/-- Cleaned weight looked up for one listed symbol. -/
def cleanedWeight (raw : Dict String RawVal) (s : String) : ℚ :=
  (dlookup (cleanAllocations raw) s).getD 0

/-- Total of the cleaned weights over the listed symbols (the loop in
_normalize_allocations adds once per list position). -/
def cleanedTotal (symbols : List String) (raw : Dict String RawVal) : ℚ :=
  (symbols.map (cleanedWeight raw)).sum

/-- PortfolioStore._normalize_allocations. -/
def normalizeAllocations (symbols : List String)
    (allocations : Option (Dict String RawVal)) : Dict String ℚ :=
  if symbols = [] then []
  else
    match allocations with
    | none => equalSplit symbols
    | some raw =>
        if raw = [] then equalSplit symbols
        else
          let weights := symbols.foldl (fun acc s => dinsert acc s (cleanedWeight raw s)) []
          let total := cleanedTotal symbols raw
          if total ≤ 0 then equalSplit symbols
          else weights.map (fun kv => (kv.1, round6 (kv.2 / total)))

/-- Sum of the weights stored in a weight dict. -/
def sumValues (m : Dict String ℚ) : ℚ := (m.map Prod.snd).sum

/-! ### Entity model (models.py) and store state -/

structure Portfolio where
  id : String
  name : String
  description : Option String
  symbols : List String
  allocation_percent : ℚ
  allocations : Dict String ℚ
  start_date : PyDateTime
  created_at : PyDateTime
  updated_at : PyDateTime
deriving DecidableEq, Repr

structure PortfolioSetup where
  id : String
  name : String
  description : Option String
  start_date : PyDateTime
  end_date : PyDateTime
  created_at : PyDateTime
  updated_at : PyDateTime
  portfolio_ids : List String
deriving DecidableEq, Repr

/-- The in-memory state owned by PortfolioStore. -/
structure StoreState where
  portfolios : Dict String Portfolio
  portfolio_symbols : Dict String (Dict String ℚ)
  setups : Dict String PortfolioSetup
  setup_portfolios : Dict String (List String)
  portfolio_to_setup : Dict String String
deriving DecidableEq, Repr

structure PortfolioCreatePayload where
  name : String
  description : Option String
  symbols : List String
  allocation_percent : ℚ
  start_date : Option PyDateTime
  allocations : Option (Dict String RawVal)
deriving DecidableEq, Repr

structure PortfolioUpdatePayload where
  name : Option String
  description : Option String
  symbols : Option (List String)
  allocations : Option (Dict String RawVal)
  start_date : Option PyDateTime
  allocation_percent : Option ℚ
deriving DecidableEq, Repr

structure SetupCreatePayload where
  name : String
  description : Option String
  start_date : Option PyDateTime
  end_date : Option PyDateTime
deriving DecidableEq, Repr

structure SetupUpdatePayload where
  name : Option String
  description : Option String
  start_date : Option PyDateTime
  end_date : Option PyDateTime
deriving DecidableEq, Repr

/-- The error taxonomy raised by the store (KeyError and the ValueError
messages, one tag per raise site). -/
inductive StoreErr where
  | setupNotFound
  | portfolioNotFound
  | budgetExceeded
  | notEmpty
  | invalidRange
  | startDateManaged
  | notAssociated
  | portfolioKeyError
deriving DecidableEq, Repr

/-! ### Constraint enforcement and setup metadata -/

/-- One iteration of the inner loop of _enforce_setup_constraints: record
the owning setup of one assigned portfolio and resync its start date to
the setup's. -/
def syncStep (sid : String) (setupStart : PyDateTime) (st : StoreState) (pid : String) :
    StoreState :=
  let st1 := { st with portfolio_to_setup := dinsert st.portfolio_to_setup pid sid }
  match dlookup st1.portfolios pid with
  | none => st1   -- unreachable: assigned was filtered to existing portfolios
  | some pf =>
      if pyDtEq pf.start_date setupStart then st1
      else { st1 with portfolios := dinsert st1.portfolios pid { pf with start_date := setupStart } }

/-- Inner loop of _enforce_setup_constraints over the assigned list. -/
def syncAssigned (sid : String) (setupStart : PyDateTime) (st : StoreState)
    (assigned : List String) : StoreState :=
  assigned.foldl (syncStep sid setupStart) st

/-- One setup's pass of _enforce_setup_constraints: prune the membership to
existing portfolios, sort it, mirror it into the setup record, then sync
the assigned portfolios. -/
def enforceStep (st : StoreState) (sid : String) : StoreState :=
  let assigned :=
    pySorted (((dlookup st.setup_portfolios sid).getD []).filter
      (fun pid => (dlookup st.portfolios pid).isSome))
  let st1 := { st with setup_portfolios := dinsert st.setup_portfolios sid assigned }
  match dlookup st1.setups sid with
  | none => st1   -- unreachable: sid is drawn from the setups keys
  | some setup =>
      let updatedSetup := { setup with portfolio_ids := assigned }
      let st2 := { st1 with setups := dinsert st1.setups sid updatedSetup }
      syncAssigned sid updatedSetup.start_date st2 assigned

/-- PortfolioStore._enforce_setup_constraints. -/
def enforceSetupConstraints (st : StoreState) : StoreState :=
  if st.setups = [] then st
  else (dkeys st.setups).foldl enforceStep st

/-- PortfolioStore._update_setup_metadata: dedupe and sort the membership,
mirror it into the setup record and refresh updated_at. -/
def updateSetupMetadata (st : StoreState) (sid : String) (now : PyDateTime) : StoreState :=
  let assigned := pySorted ((dlookup st.setup_portfolios sid).getD [] |>.dedup)
  let st1 := { st with setup_portfolios := dinsert st.setup_portfolios sid assigned }
  match dlookup st1.setups sid with
  | none => st1   -- source raises KeyError; every call site guarantees the setup exists
  | some setup =>
      { st1 with setups :=
          dinsert st1.setups sid { setup with portfolio_ids := assigned, updated_at := now } }

/-! ### Budget validation -/

/-- Sum of allocation_percent over the given membership, skipping the
excluded id; errors like the source's dict indexing would on a missing
portfolio. -/
def sumAllocationsExcluding (st : StoreState) (pids : List String) (exclude : Option String) :
    Except StoreErr ℚ :=
  match pids with
  | [] => .ok 0
  | pid :: rest =>
      if some pid = exclude then sumAllocationsExcluding st rest exclude
      else
        match dlookup st.portfolios pid with
        | none => .error .portfolioKeyError
        | some pf => (sumAllocationsExcluding st rest exclude).map (fun t => pf.allocation_percent + t)

def budgetLimit : ℚ := 1 + 1/1000000

/-- PortfolioStore._validate_allocation_budget. -/
def validateAllocationBudget (st : StoreState) (requested : ℚ) (sid : String)
    (exclude : Option String) : Except StoreErr Unit :=
  match sumAllocationsExcluding st ((dlookup st.setup_portfolios sid).getD []) exclude with
  | .error e => .error e
  | .ok total => if total + requested > budgetLimit then .error .budgetExceeded else .ok ()

/-! ### Mutating operations

Each operation returns .ok with the post-state, or .error carrying the
error tag and the state at the moment the source raises (mutations that
already happened before the raise are visible in that state).  Every
successful mutation ends with the enforcement pass, which is the
in-memory effect of _save. -/

/-- Python truthiness of an optional description in create paths:
the strip is applied only to a truthy (non-empty) string. -/
def createDescription (d : Option String) : Option String :=
  match d with
  | none => none
  | some s => if s = "" then none else some (pyStrip s)

/-- Update paths strip first and then apply the or-None collapse. -/
def updateDescription (s : String) : Option String :=
  if pyStrip s = "" then none else some (pyStrip s)

/-- The setup record create_setup builds: normalized dates with the
end-before-start clamp, trimmed name and description, fresh timestamps. -/
def buildNewSetup (payload : SetupCreatePayload) (nowDT : PyDateTime) (sid : String) :
    PortfolioSetup :=
  let start_date := normalizeDatetime nowDT payload.start_date
  let end0 := normalizeDatetime nowDT payload.end_date
  let end_date := if pyDtLt end0 start_date then start_date else end0
  { id := sid
    name := pyStrip payload.name
    description := createDescription payload.description
    start_date := start_date
    end_date := end_date
    created_at := nowDT
    updated_at := nowDT
    portfolio_ids := [] }

/-- PortfolioStore.create_setup. -/
def createSetup (st : StoreState) (payload : SetupCreatePayload) (now : Int) (sid : String) :
    Except (StoreErr × StoreState) StoreState :=
  let nowDT := utcNow now
  let setup := buildNewSetup payload nowDT sid
  let st1 := { st with
    setups := dinsert st.setups sid setup
    setup_portfolios := dinsert st.setup_portfolios sid [] }
  .ok (enforceSetupConstraints st1)

/-- The patched setup record update_setup builds locally before storing:
name and description updates, the start-date update with its end-date
pull-forward, the end-date update with its InvalidRange check, and the
updated_at refresh. -/
def applySetupPatch (setup : PortfolioSetup) (payload : SetupUpdatePayload)
    (nowDT : PyDateTime) : Except StoreErr PortfolioSetup :=
  let u1 := match payload.name with
    | none => setup
    | some n => { setup with name := pyStrip n }
  let u2 := match payload.description with
    | none => u1
    | some d => { u1 with description := updateDescription d }
  let u3 := match payload.start_date with
    | none => u2
    | some sd0 =>
        let sd := normalizeDatetime nowDT (some sd0)
        let u2a := if payload.end_date = none ∧ pyDtLt u2.end_date sd = true
          then { u2 with end_date := sd } else u2
        { u2a with start_date := sd }
  match payload.end_date with
  | some ed0 =>
      let ed := normalizeDatetime nowDT (some ed0)
      if pyDtLt ed u3.start_date then .error .invalidRange
      else .ok { u3 with end_date := ed, updated_at := nowDT }
  | none => .ok { u3 with updated_at := nowDT }

/-- PortfolioStore.update_setup. -/
def updateSetup (st : StoreState) (sid : String) (payload : SetupUpdatePayload) (now : Int) :
    Except (StoreErr × StoreState) StoreState :=
  match dlookup st.setups sid with
  | none => .error (.setupNotFound, st)
  | some setup =>
      match applySetupPatch setup payload (utcNow now) with
      | .error e => .error (e, st)
      | .ok updated =>
          let st1 := { st with setups := dinsert st.setups sid updated }
          .ok (enforceSetupConstraints (enforceSetupConstraints st1))

/-- PortfolioStore.delete_setup. -/
def deleteSetup (st : StoreState) (sid : String) (now : Int) (freshId : String) :
    Except (StoreErr × StoreState) StoreState :=
  match dlookup st.setups sid with
  | none => .error (.setupNotFound, st)
  | some _ =>
      if (dlookup st.setup_portfolios sid).getD [] ≠ [] then .error (.notEmpty, st)
      else
        let st1 := { st with
          setups := derase st.setups sid
          setup_portfolios := derase st.setup_portfolios sid }
        let st2 :=
          if st1.setups = [] then
            let nowDT := utcNow now
            let fresh : PortfolioSetup :=
              { id := freshId, name := "Portfolio Setup", description := none
                start_date := nowDT, end_date := nowDT
                created_at := nowDT, updated_at := nowDT, portfolio_ids := [] }
            { st1 with
              setups := dinsert st1.setups freshId fresh
              setup_portfolios := dinsert st1.setup_portfolios freshId [] }
          else st1
        .ok (enforceSetupConstraints st2)

/-- PortfolioStore.create_portfolio. -/
def createPortfolio (st : StoreState) (sid : String) (payload : PortfolioCreatePayload)
    (now : Int) (pid : String) : Except (StoreErr × StoreState) StoreState :=
  match dlookup st.setups sid with
  | none => .error (.setupNotFound, st)
  | some setup =>
      let requested := payload.allocation_percent
      match validateAllocationBudget st requested sid none with
      | .error e => .error (e, st)
      | .ok _ =>
          let nowDT := utcNow now
          let symbols := normalizeSymbols payload.symbols
          let allocationsMap := normalizeAllocations symbols payload.allocations
          let portfolio : Portfolio :=
            { id := pid
              name := pyStrip payload.name
              description := createDescription payload.description
              symbols := symbols
              allocation_percent := requested
              allocations := allocationsMap
              start_date := setup.start_date
              created_at := nowDT
              updated_at := nowDT }
          let st1 := { st with
            portfolios := dinsert st.portfolios pid portfolio
            portfolio_symbols := dinsert st.portfolio_symbols pid allocationsMap
            setup_portfolios :=
              dinsert st.setup_portfolios sid ((dlookup st.setup_portfolios sid).getD [] ++ [pid])
            portfolio_to_setup := dinsert st.portfolio_to_setup pid sid }
          .ok (enforceSetupConstraints (updateSetupMetadata st1 sid nowDT))

/-- PortfolioStore._recalculate_symbol_weights: store the normalized
weights, or drop the entry when they are empty. -/
def recalcSymbolWeights (st : StoreState) (pid : String) (symbols : List String)
    (allocations : Option (Dict String RawVal)) : Dict String ℚ × StoreState :=
  let weights := normalizeAllocations symbols allocations
  if weights = [] then (weights, { st with portfolio_symbols := derase st.portfolio_symbols pid })
  else (weights, { st with portfolio_symbols := dinsert st.portfolio_symbols pid weights })

/-- PortfolioStore.update_portfolio.  Note the stored symbol weights are
recalculated before the allocation budget is validated, so a budget
failure can leave the recalculated weights behind. -/
def updatePortfolio (st : StoreState) (pid : String) (payload : PortfolioUpdatePayload)
    (now : Int) : Except (StoreErr × StoreState) StoreState :=
  match dlookup st.portfolios pid with
  | none => .error (.portfolioNotFound, st)
  | some pf =>
      match dlookup st.portfolio_to_setup pid with
      | none => .error (.notAssociated, st)
      | some sid =>
          if (dlookup st.setups sid).isSome = false then .error (.notAssociated, st)
          else
            let nowDT := utcNow now
            let u1 := match payload.name with
              | none => pf
              | some n => { pf with name := pyStrip n }
            let u2 := match payload.description with
              | none => u1
              | some d => { u1 with description := updateDescription d }
            if payload.start_date ≠ none then .error (.startDateManaged, st)
            else
              let symbols := match payload.symbols with
                | none => u2.symbols
                | some ss => normalizeSymbols ss
              let step :=
                if payload.symbols ≠ none ∨ payload.allocations ≠ none then
                  let ws := recalcSymbolWeights st pid symbols payload.allocations
                  ({ u2 with symbols := symbols, allocations := ws.1 }, ws.2)
                else
                  ({ u2 with allocations := (dlookup st.portfolio_symbols pid).getD [] }, st)
              let u3 := step.1
              let st1 := step.2
              match payload.allocation_percent with
              | some r =>
                  (match validateAllocationBudget st1 r sid (some pid) with
                   | .error e => .error (e, st1)
                   | .ok _ =>
                       let u4 := { u3 with allocation_percent := r, updated_at := nowDT }
                       let st2 := { st1 with portfolios := dinsert st1.portfolios pid u4 }
                       .ok (enforceSetupConstraints (updateSetupMetadata st2 sid nowDT)))
              | none =>
                  let u4 := { u3 with updated_at := nowDT }
                  let st2 := { st1 with portfolios := dinsert st1.portfolios pid u4 }
                  .ok (enforceSetupConstraints (updateSetupMetadata st2 sid nowDT))

/-- PortfolioStore.delete_portfolio. -/
def deletePortfolio (st : StoreState) (pid : String) (now : Int) :
    Except (StoreErr × StoreState) StoreState :=
  match dlookup st.portfolios pid with
  | none => .error (.portfolioNotFound, st)
  | some _ =>
      let sidOpt := dlookup st.portfolio_to_setup pid
      let st1 := match sidOpt with
        | none => st
        | some sid =>
            { st with
              setup_portfolios :=
                dinsert st.setup_portfolios sid (((dlookup st.setup_portfolios sid).getD []).erase pid)
              portfolio_to_setup := derase st.portfolio_to_setup pid }
      let st2 := { st1 with
        portfolios := derase st1.portfolios pid
        portfolio_symbols := derase st1.portfolio_symbols pid }
      let st3 := match sidOpt with
        | some sid =>
            if (dlookup st2.setups sid).isSome then updateSetupMetadata st2 sid (utcNow now) else st2
        | none => st2
      .ok (enforceSetupConstraints st3)

/-- The six mutating store operations, as one step relation. -/
inductive MutOp where
  | createSetupOp (payload : SetupCreatePayload) (now : Int) (sid : String)
  | updateSetupOp (sid : String) (payload : SetupUpdatePayload) (now : Int)
  | deleteSetupOp (sid : String) (now : Int) (freshId : String)
  | createPortfolioOp (sid : String) (payload : PortfolioCreatePayload) (now : Int) (pid : String)
  | updatePortfolioOp (pid : String) (payload : PortfolioUpdatePayload) (now : Int)
  | deletePortfolioOp (pid : String) (now : Int)
deriving DecidableEq, Repr

def applyOp (st : StoreState) : MutOp → Except (StoreErr × StoreState) StoreState
  | .createSetupOp payload now sid => createSetup st payload now sid
  | .updateSetupOp sid payload now => updateSetup st sid payload now
  | .deleteSetupOp sid now freshId => deleteSetup st sid now freshId
  | .createPortfolioOp sid payload now pid => createPortfolio st sid payload now pid
  | .updatePortfolioOp pid payload now => updatePortfolio st pid payload now
  | .deletePortfolioOp pid now => deletePortfolio st pid now

/-! ### Persistence: the four row-sets

Row cells hold the persisted column values.  A date cell is modelled by
the PyDateTime its ISO-8601 string denotes (fromisoformat inverts
isoformat exactly); Option none models a missing, empty or unparsable
cell.  Numeric and string cells are carried directly, with Option none
for an absent column. -/

structure PortfolioRow where
  id : String
  name : Option String
  description : Option String
  allocation_percent : Option ℚ
  start_date : Option PyDateTime
  created_at : Option PyDateTime
  updated_at : Option PyDateTime
deriving DecidableEq, Repr

structure SymbolRow where
  portfolio_id : String
  symbol : String
  weight : Option ℚ
deriving DecidableEq, Repr

structure SetupRow where
  id : String
  name : Option String
  description : Option String
  start_date : Option PyDateTime
  end_date : Option PyDateTime
  created_at : Option PyDateTime
  updated_at : Option PyDateTime
deriving DecidableEq, Repr

structure MappingRow where
  setup_id : String
  portfolio_id : String
deriving DecidableEq, Repr

structure PersistedRows where
  portfolios : List PortfolioRow
  portfolio_symbols : List SymbolRow
  setups : List SetupRow
  setup_portfolios : List MappingRow
deriving DecidableEq, Repr

/-- PortfolioStore._build_portfolios_frame. -/
def buildPortfoliosRows (st : StoreState) : List PortfolioRow :=
  st.portfolios.map (fun kv =>
    { id := kv.2.id
      name := some kv.2.name
      description := some (kv.2.description.getD "")
      allocation_percent := some kv.2.allocation_percent
      start_date := some kv.2.start_date
      created_at := some kv.2.created_at
      updated_at := some kv.2.updated_at })

/-- PortfolioStore._build_symbols_frame. -/
def buildSymbolsRows (st : StoreState) : List SymbolRow :=
  st.portfolio_symbols.flatMap (fun kv =>
    kv.2.map (fun sw => { portfolio_id := kv.1, symbol := sw.1, weight := some sw.2 }))

/-- PortfolioStore._build_setups_frame. -/
def buildSetupsRows (st : StoreState) : List SetupRow :=
  st.setups.map (fun kv =>
    { id := kv.2.id
      name := some kv.2.name
      description := some (kv.2.description.getD "")
      start_date := some kv.2.start_date
      end_date := some kv.2.end_date
      created_at := some kv.2.created_at
      updated_at := some kv.2.updated_at })

/-- PortfolioStore._build_setup_portfolios_frame. -/
def buildMappingRows (st : StoreState) : List MappingRow :=
  st.setup_portfolios.flatMap (fun kv =>
    kv.2.map (fun pid => { setup_id := kv.1, portfolio_id := pid }))

/-- PortfolioStore._save: run the enforcement pass and then rebuild the
four row-sets from the enforced state. -/
def saveStore (st : StoreState) : StoreState × PersistedRows :=
  let st1 := enforceSetupConstraints st
  (st1,
    { portfolios := buildPortfoliosRows st1
      portfolio_symbols := buildSymbolsRows st1
      setups := buildSetupsRows st1
      setup_portfolios := buildMappingRows st1 })

/-! ### Load protocol (_load) -/

/-- One symbol row folded into the rehydrated symbol-weight map; the
symbol is upper-cased and a missing or zero weight cell reads as 0.0. -/
def loadSymbolStep (acc : Dict String (Dict String ℚ)) (r : SymbolRow) :
    Dict String (Dict String ℚ) :=
  let inner := (dlookup acc r.portfolio_id).getD []
  dinsert acc r.portfolio_id (dinsert inner (pyUpper r.symbol) (r.weight.getD 0))

/-- The symbol-weight map rehydrated from the symbol rows. -/
def loadSymbolMap (rows : List SymbolRow) : Dict String (Dict String ℚ) :=
  rows.foldl loadSymbolStep []

/-- One portfolio rehydrated from its row (the or-fallback chain for the
timestamps, the or-None collapse for the description, the symbol list
derived from the weight keys). -/
def loadPortfolioEntry (symbolMap : Dict String (Dict String ℚ)) (now : PyDateTime)
    (r : PortfolioRow) : Portfolio :=
  let created_at := r.created_at.getD now
  let updated_at := r.updated_at.getD created_at
  let start_date := r.start_date.getD created_at
  let allocationsMap := (dlookup symbolMap r.id).getD []
  { id := r.id
    name := pyStrip (r.name.getD "")
    description := match r.description with
      | none => none
      | some "" => none
      | some s => some s
    symbols := pySorted (dkeys allocationsMap)
    allocation_percent := r.allocation_percent.getD 0
    allocations := allocationsMap
    start_date := start_date
    created_at := created_at
    updated_at := updated_at }

def loadPortfolios (symbolMap : Dict String (Dict String ℚ)) (now : PyDateTime)
    (rows : List PortfolioRow) : Dict String Portfolio :=
  rows.foldl (fun acc r => dinsert acc r.id (loadPortfolioEntry symbolMap now r)) []

/-- One setup rehydrated from its row; its start and end dates are
UTC-normalized on load. -/
def loadSetupEntry (now : PyDateTime) (r : SetupRow) : PortfolioSetup :=
  let created_at := r.created_at.getD now
  let updated_at := r.updated_at.getD created_at
  let start_date := r.start_date.getD created_at
  let end_date := r.end_date.getD updated_at
  { id := r.id
    name := pyStrip (r.name.getD "")
    description := match r.description with
      | none => none
      | some "" => none
      | some s => some s
    start_date := normalizeDatetime now (some start_date)
    end_date := normalizeDatetime now (some end_date)
    created_at := created_at
    updated_at := updated_at
    portfolio_ids := [] }

/-- Append one orphaned portfolio to the first setup's membership (the
inline reassignment loop at the end of _load). -/
def assignOrphan (st : StoreState) (firstSid pid : String) : StoreState :=
  { st with
    setup_portfolios :=
      dinsert st.setup_portfolios firstSid ((dlookup st.setup_portfolios firstSid).getD [] ++ [pid])
    portfolio_to_setup := dinsert st.portfolio_to_setup pid firstSid }

/-- One setup row folded into the rehydrated setups dict and the empty
membership dict (the single loop over setup rows in _load). -/
def loadSetupsStep (now : PyDateTime)
    (acc : Dict String PortfolioSetup × Dict String (List String)) (r : SetupRow) :
    Dict String PortfolioSetup × Dict String (List String) :=
  (dinsert acc.1 r.id (loadSetupEntry now r), dinsert acc.2 r.id [])

/-- One mapping row folded into the memberships and the owner map,
dropped when it references a nonexistent setup or portfolio. -/
def loadMappingStep (setups : Dict String PortfolioSetup) (portfolios : Dict String Portfolio)
    (acc : Dict String (List String) × Dict String String) (r : MappingRow) :
    Dict String (List String) × Dict String String :=
  if (dlookup setups r.setup_id).isSome && (dlookup portfolios r.portfolio_id).isSome then
    (dinsert acc.1 r.setup_id ((dlookup acc.1 r.setup_id).getD [] ++ [r.portfolio_id]),
     dinsert acc.2 r.portfolio_id r.setup_id)
  else acc

/-- One portfolio of the orphan-reassignment loop at the end of _load. -/
def orphanStep (firstSid : String) (st : StoreState) (pid : String) : StoreState :=
  match dlookup st.portfolio_to_setup pid with
  | some sid => if (dlookup st.setups sid).isSome then st else assignOrphan st firstSid pid
  | none => assignOrphan st firstSid pid

/-- The whole orphan-reassignment loop at the end of _load: every
portfolio with a missing or dangling setup reference is appended to the
first setup's membership. -/
def orphanPass (st0 : StoreState) : StoreState :=
  match dkeys st0.setups with
  | [] => st0   -- unreachable: at least one setup always exists here
  | firstSid :: _ => (dkeys st0.portfolios).foldl (orphanStep firstSid) st0

/-- PortfolioStore._load, from the four row-sets.  now stands for every
_timestamp() call during the load; defaultId and fallbackId are the
uuid4 values drawn for the two default-setup branches. -/
def loadStore (rows : PersistedRows) (now : Int) (defaultId fallbackId : String) : StoreState :=
  let nowDT := utcNow now
  let symbolMap := loadSymbolMap rows.portfolio_symbols
  let portfolios := loadPortfolios symbolMap nowDT rows.portfolios
  let base :=
    if rows.setups ≠ [] then
      let pair := rows.setups.foldl (loadSetupsStep nowDT) ([], [])
      let tri := rows.setup_portfolios.foldl (loadMappingStep pair.1 portfolios) (pair.2, [])
      (pair.1, tri.1, tri.2)
    else
      let startDate :=
        if portfolios ≠ [] then pyMinDT (portfolios.map (fun kv => kv.2.start_date)) nowDT
        else nowDT
      let setup : PortfolioSetup :=
        { id := defaultId
          name := "Default Portfolio Setup"
          description := some "Migrated from legacy configuration"
          start_date := normalizeDatetime nowDT (some startDate)
          end_date := nowDT
          created_at := nowDT
          updated_at := nowDT
          portfolio_ids := [] }
      ([(defaultId, setup)], [(defaultId, ([] : List String))], ([] : Dict String String))
  let setups0 := base.1
  let sp0 := base.2.1
  let p2s0 := base.2.2
  -- the second defensive default (never reached when the first branch ran)
  let pairFB :=
    if setups0 = [] then
      let fb : PortfolioSetup :=
        { id := fallbackId, name := "Portfolio Setup", description := none
          start_date := nowDT, end_date := nowDT
          created_at := nowDT, updated_at := nowDT, portfolio_ids := [] }
      (dinsert setups0 fallbackId fb, dinsert sp0 fallbackId ([] : List String))
    else (setups0, sp0)
  let st0 : StoreState :=
    { portfolios := portfolios
      portfolio_symbols := symbolMap
      setups := pairFB.1
      setup_portfolios := pairFB.2
      portfolio_to_setup := p2s0 }
  enforceSetupConstraints (orphanPass st0)

/-! ### HistoryAggregator (_build_portfolio_history) -/

/-- One raw price bar as the parser sees it: ts is the parsed t/time
timestamp (none when the cell is missing, not a string, or unparsable;
bar timestamps compare by instant, so they are carried as integers),
close is the parsed c cell (none when missing or not numeric). -/
structure Bar where
  ts : Option Int
  close : Option ℚ
deriving DecidableEq, Repr

structure HistoryPoint where
  date : Int
  value : ℚ
  components : Dict String ℚ
deriving DecidableEq, Repr

/-- The per-symbol price map: keep bars whose timestamp and close both
parse, later bars overwriting earlier ones at the same timestamp. -/
def buildPriceMap (entries : List Bar) : Dict Int ℚ :=
  entries.foldl
    (fun m e =>
      match e.ts, e.close with
      | some t, some p => dinsert m t p
      | _, _ => m) []

/-- price_maps: only symbols with at least one parsed bar get an entry. -/
def buildPriceMaps (symbols : List String) (bars : Dict String (List Bar)) :
    Dict String (Dict Int ℚ) :=
  symbols.foldl
    (fun acc symbol =>
      let sp := buildPriceMap ((dlookup bars symbol).getD [])
      if sp ≠ [] then dinsert acc symbol sp else acc) []

/-- The per-timestamp component loop: all requested symbols must have a
price at t, otherwise the timestamp is skipped (none). -/
def computePoint (weights : Dict String ℚ) (pmaps : Dict String (Dict Int ℚ)) (t : Int) :
    List String → Dict String ℚ → ℚ → Option (Dict String ℚ × ℚ)
  | [], comps, total => some (comps, total)
  | s :: rest, comps, total =>
      match dlookup ((dlookup pmaps s).getD []) t with
      | none => none
      | some price =>
          let w := (dlookup weights s).getD 0   -- weights.get(symbol) or 0.0
          let c := w * price
          computePoint weights pmaps t rest (dinsert comps s c) (total + c)

/-- The main emission loop with its first-retained-total base. -/
def histLoop (symbols : List String) (weights : Dict String ℚ)
    (pmaps : Dict String (Dict Int ℚ)) : List Int → Option ℚ → List HistoryPoint
  | [], _ => []
  | t :: rest, base =>
      match computePoint weights pmaps t symbols [] 0 with
      | none => histLoop symbols weights pmaps rest base
      | some (comps, total) =>
          if total ≤ 0 then histLoop symbols weights pmaps rest base
          else
            let b := base.getD total
            let value := if b = 0 then 1 else total / b
            { date := t, value := value, components := comps } ::
              histLoop symbols weights pmaps rest (some b)

/-- sorted(set.intersection(*date_sets)). -/
def intersectSorted (sets : List (List Int)) : List Int :=
  match sets with
  | [] => []
  | h :: t =>
      List.insertionSort (· ≤ ·)
        (t.foldl (fun acc ks => acc.filter (fun x => decide (x ∈ ks))) h)

/-- routes_portfolios._build_portfolio_history. -/
def buildPortfolioHistory (symbols : List String) (weights : Dict String ℚ)
    (bars : Dict String (List Bar)) : List HistoryPoint :=
  let pmaps := buildPriceMaps symbols bars
  if pmaps = [] then []
  else
    let dateSets := (pmaps.filter (fun kv => kv.2 ≠ [])).map (fun kv => dkeys kv.2)
    if dateSets = [] then []
    else
      let commonDates := intersectSorted dateSets
      if commonDates = [] then []
      else histLoop symbols weights pmaps commonDates none

/-! ### Dict-building fold lemmas -/

section DictFolds

variable {κ V α : Type} [DecidableEq κ]

theorem dlookup_foldl_dinsert_self (g : κ → V) (xs : List κ) (acc : Dict κ V) (key : κ) :
    dlookup (xs.foldl (fun acc s => dinsert acc s (g s)) acc) key
      = if key ∈ xs then some (g key) else dlookup acc key := by
  induction xs generalizing acc with
  | nil => simp
  | cons x rest ih =>
      rw [List.foldl_cons, ih]
      by_cases hx : key ∈ rest
      · simp [hx]
      · by_cases hk : key = x
        · subst hk
          simp [hx]
        · simp [hx, hk, dlookup_dinsert_ne _ _ _ _ (Ne.symm hk)]

theorem foldl_dinsert_fresh (f : α → κ) (g : α → V) (xs : List α) (acc : Dict κ V)
    (hnd : (xs.map f).Nodup) (hfresh : ∀ x ∈ xs, f x ∉ dkeys acc) :
    xs.foldl (fun acc x => dinsert acc (f x) (g x)) acc
      = acc ++ xs.map (fun x => (f x, g x)) := by
  induction xs generalizing acc with
  | nil => simp
  | cons x rest ih =>
      rw [List.foldl_cons, dinsert_of_not_mem _ _ _ (hfresh x (by simp))]
      rw [List.map_cons] at hnd
      rw [ih (acc ++ [(f x, g x)]) hnd.of_cons]
      · simp
      · intro y hy
        have h1 : f y ∉ dkeys acc := hfresh y (by simp [hy])
        have h2 : f y ≠ f x := by
          intro hc
          exact (List.nodup_cons.1 hnd).1 (hc ▸ List.mem_map_of_mem f hy)
        have hk : dkeys (acc ++ [(f x, g x)]) = dkeys acc ++ [f x] := by simp [dkeys]
        rw [hk]
        simp [List.mem_append, h1, h2]

theorem dlookup_map_value {V2 : Type} (m : Dict κ V) (g : κ → V → V2) (key : κ) :
    dlookup (m.map (fun kv => (kv.1, g kv.1 kv.2))) key = (dlookup m key).map (g key) := by
  induction m with
  | nil => simp
  | cons hd tl ih =>
      obtain ⟨k, v⟩ := hd
      by_cases h : k = key <;> simp [h, ih]

theorem dkeys_map_value {V2 : Type} (m : Dict κ V) (g : κ → V → V2) :
    dkeys (m.map (fun kv => (kv.1, g kv.1 kv.2))) = dkeys m := by
  induction m with
  | nil => simp
  | cons hd tl _ih => simp [dkeys]

end DictFolds

/-! ### Claim C6 and C7: weight normalization -/

theorem cleanedTotal_of_empty (symbols : List String) : cleanedTotal symbols [] = 0 := by
  have h : cleanedWeight ([] : Dict String RawVal) = fun _ => (0:ℚ) := by
    funext s
    simp [cleanedWeight, cleanAllocations]
  simp [cleanedTotal, h]

/-- The supplied-weights branch of _normalize_allocations as one equation:
with a strictly positive cleaned total, the result maps every listed
symbol to its cleaned weight over the total, rounded. -/
theorem normalizeAllocations_pos_eq (symbols : List String) (raw : Dict String RawVal)
    (hne : symbols ≠ []) (hpos : 0 < cleanedTotal symbols raw) :
    normalizeAllocations symbols (some raw)
      = (symbols.foldl (fun acc s => dinsert acc s (cleanedWeight raw s)) []).map
          (fun kv => (kv.1, round6 (kv.2 / cleanedTotal symbols raw))) := by
  have hraw : raw ≠ [] := by
    intro hc
    rw [hc, cleanedTotal_of_empty] at hpos
    exact lt_irrefl 0 hpos
  unfold normalizeAllocations
  rw [if_neg hne]
  dsimp only
  rw [if_neg hraw, if_neg (not_le.2 hpos)]

/-- Claim C6: for a non-empty symbol list and a supplied weight map whose
cleaned total over the listed symbols is strictly positive,
_normalize_allocations maps each listed symbol to its cleaned weight
(upper-cased trimmed keys, non-numeric and negative values coerced to 0)
divided by the total and rounded to 6 decimal places; symbols outside the
list are ignored (absent from the result), and listed symbols absent from
the cleaned map get weight 0. -/
theorem claim_C6_normalize_supplied (symbols : List String) (raw : Dict String RawVal)
    (hne : symbols ≠ []) (hpos : 0 < cleanedTotal symbols raw) :
    (∀ s ∈ symbols,
        dlookup (normalizeAllocations symbols (some raw)) s
          = some (round6 (cleanedWeight raw s / cleanedTotal symbols raw)))
    ∧ (∀ s, s ∉ symbols → dlookup (normalizeAllocations symbols (some raw)) s = none)
    ∧ (∀ s ∈ symbols, dlookup (cleanAllocations raw) s = none →
        dlookup (normalizeAllocations symbols (some raw)) s = some 0) := by
  have heq := normalizeAllocations_pos_eq symbols raw hne hpos
  refine ⟨?_, ?_, ?_⟩
  · intro s hs
    rw [heq, dlookup_map_value _ (fun _ v => round6 (v / cleanedTotal symbols raw)),
      dlookup_foldl_dinsert_self, if_pos hs]
    rfl
  · intro s hs
    rw [heq, dlookup_map_value _ (fun _ v => round6 (v / cleanedTotal symbols raw)),
      dlookup_foldl_dinsert_self, if_neg hs]
    rfl
  · intro s hs habs
    rw [heq, dlookup_map_value _ (fun _ v => round6 (v / cleanedTotal symbols raw)),
      dlookup_foldl_dinsert_self, if_pos hs]
    simp [cleanedWeight, habs]

theorem claim_C6_witness :
    (["A", "B"] : List String) ≠ []
    ∧ 0 < cleanedTotal ["A", "B"] [(" a ", some 3), ("B", some 1)]
    ∧ (∀ s ∈ (["A", "B"] : List String),
        dlookup (normalizeAllocations ["A", "B"] (some [(" a ", some 3), ("B", some 1)])) s
          = some (round6 (cleanedWeight [(" a ", some 3), ("B", some 1)] s
              / cleanedTotal ["A", "B"] [(" a ", some 3), ("B", some 1)]))) := by
  refine ⟨by decide, by with_unfolding_all decide, ?_⟩
  exact (claim_C6_normalize_supplied ["A", "B"] [(" a ", some 3), ("B", some 1)]
    (by decide) (by with_unfolding_all decide)).1

theorem equalSplit_eq_map (symbols : List String) (hnd : symbols.Nodup) :
    equalSplit symbols
      = symbols.map (fun s => (s, round6 (1 / (symbols.length : ℚ)))) := by
  unfold equalSplit
  have := foldl_dinsert_fresh (fun s : String => s)
    (fun _ => round6 (1 / (symbols.length : ℚ))) symbols []
    (by simpa using hnd) (by simp)
  simpa using this

theorem sumValues_equalSplit (symbols : List String) (hnd : symbols.Nodup) :
    sumValues (equalSplit symbols)
      = (symbols.length : ℚ) * round6 (1 / (symbols.length : ℚ)) := by
  rw [equalSplit_eq_map symbols hnd]
  simp only [sumValues, List.map_map]
  have : (Prod.snd ∘ fun s : String => (s, round6 (1 / (symbols.length : ℚ))))
      = fun _ => round6 (1 / (symbols.length : ℚ)) := rfl
  rw [this, List.map_const', List.sum_replicate, nsmul_eq_mul]

/-- Claim C7 (amended): with no supplied weight map, or a supplied map of
non-positive cleaned total, every listed symbol gets round(1/n, 6); the
resulting weights sum to 1 within 1e-4 whenever the (deduplicated) list
has at most 200 symbols, but not for arbitrarily long lists. -/
theorem claim_C7_equal_split (symbols : List String) (raw : Dict String RawVal)
    (hne : symbols ≠ []) :
    (∀ s ∈ symbols,
        dlookup (normalizeAllocations symbols none) s
          = some (round6 (1 / (symbols.length : ℚ))))
    ∧ (cleanedTotal symbols raw ≤ 0 → ∀ s ∈ symbols,
        dlookup (normalizeAllocations symbols (some raw)) s
          = some (round6 (1 / (symbols.length : ℚ))))
    ∧ (symbols.Nodup → symbols.length ≤ 200 →
        |sumValues (normalizeAllocations symbols none) - 1| ≤ 1/10000) := by
  have hsplit : ∀ s ∈ symbols,
      dlookup (equalSplit symbols) s = some (round6 (1 / (symbols.length : ℚ))) := by
    intro s hs
    unfold equalSplit
    rw [dlookup_foldl_dinsert_self, if_pos hs]
  refine ⟨?_, ?_, ?_⟩
  · intro s hs
    unfold normalizeAllocations
    rw [if_neg hne]
    exact hsplit s hs
  · intro hle s hs
    unfold normalizeAllocations
    rw [if_neg hne]
    by_cases hraw : raw = []
    · rw [hraw]
      simp only [if_pos rfl]
      exact hsplit s hs
    · simp only [if_neg hraw, if_pos hle]
      exact hsplit s hs
  · intro hnd hlen
    have hn0 : symbols.length ≠ 0 := by
      intro hc
      exact hne (List.length_eq_zero.1 hc)
    have hn1 : 1 ≤ symbols.length := Nat.one_le_iff_ne_zero.2 hn0
    have hq0 : (0:ℚ) < (symbols.length : ℚ) := by exact_mod_cast Nat.pos_of_ne_zero hn0
    have heq : normalizeAllocations symbols none = equalSplit symbols := by
      unfold normalizeAllocations
      rw [if_neg hne]
    rw [heq, sumValues_equalSplit symbols hnd]
    have hround := abs_round6_sub_le (1 / (symbols.length : ℚ))
    have hinv : (symbols.length : ℚ) * (1 / (symbols.length : ℚ)) = 1 := by
      field_simp
    have hrw : (symbols.length : ℚ) * round6 (1 / (symbols.length : ℚ)) - 1
        = (symbols.length : ℚ) * (round6 (1 / (symbols.length : ℚ)) - 1 / (symbols.length : ℚ)) := by
      rw [mul_sub, hinv]
    rw [hrw, abs_mul, abs_of_pos hq0]
    have hlenq : (symbols.length : ℚ) ≤ 200 := by exact_mod_cast hlen
    calc (symbols.length : ℚ) * |round6 (1 / (symbols.length : ℚ)) - 1 / (symbols.length : ℚ)|
        ≤ (200:ℚ) * (1/2000000) := by
          apply mul_le_mul hlenq hround (abs_nonneg _) (by norm_num)
      _ = 1/10000 := by norm_num

def c7symbols : List String := (List.range 247).map (fun n => String.mk [Char.ofNat (256 + n)])

theorem ofNatChar_toNat (n : Nat) (h : n < 247) : (Char.ofNat (256 + n)).toNat = 256 + n := by
  have hv : Nat.isValidChar (256 + n) := Or.inl (by omega)
  rw [Char.ofNat, dif_pos hv]
  rfl

theorem c7symbols_nodup : c7symbols.Nodup := by
  refine List.Nodup.map_on ?_ (List.nodup_range 247)
  intro n hn m hm hEq
  simp only [List.mem_range] at hn hm
  have h2 : Char.ofNat (256 + n) = Char.ofNat (256 + m) := by
    have := congrArg String.data hEq
    simpa using this
  have h3 := congrArg Char.toNat h2
  rw [ofNatChar_toNat n hn, ofNatChar_toNat m hm] at h3
  omega

theorem round6_one_div_247 : round6 (1/247) = 4049/1000000 := by
  have harg : (1:ℚ)/247 * 1000000 = 1000000/247 := by norm_num
  have hfl : ⌊(1000000:ℚ)/247⌋ = 4048 := by
    rw [Int.floor_eq_iff]
    constructor <;> norm_num
  unfold round6 pyRoundInt
  rw [harg, hfl]
  norm_num

/-- Counterexample to claim C7 as stated: for 247 distinct symbols the
equal-split weights sum to 1.000103, which is not within 1e-4 of 1. -/
theorem claim_C7_counterexample :
    sumValues (normalizeAllocations c7symbols none) = 1000103/1000000
    ∧ ¬ |sumValues (normalizeAllocations c7symbols none) - 1| ≤ 1/10000 := by
  have hne : c7symbols ≠ [] := by simp [c7symbols]
  have hlen : c7symbols.length = 247 := by simp [c7symbols]
  have heq : normalizeAllocations c7symbols none = equalSplit c7symbols := by
    unfold normalizeAllocations
    rw [if_neg hne]
  have h : sumValues (normalizeAllocations c7symbols none) = 1000103/1000000 := by
    rw [heq, sumValues_equalSplit c7symbols c7symbols_nodup, hlen]
    rw [show ((247:ℕ):ℚ) = 247 from by norm_num, show (1:ℚ)/(247:ℚ) = 1/247 from rfl,
      round6_one_div_247]
    norm_num
  refine ⟨h, ?_⟩
  rw [h]
  rw [show (1000103:ℚ)/1000000 - 1 = 103/1000000 by norm_num]
  rw [abs_of_nonneg (by norm_num)]
  norm_num

/-! ### Characterization of the enforcement pass -/

/-- Equality of portfolios on every field except start_date (the only
field the enforcement pass may rewrite). -/
def eqExceptStart (a b : Portfolio) : Prop :=
  a.id = b.id ∧ a.name = b.name ∧ a.description = b.description ∧ a.symbols = b.symbols
  ∧ a.allocation_percent = b.allocation_percent ∧ a.allocations = b.allocations
  ∧ a.created_at = b.created_at ∧ a.updated_at = b.updated_at

theorem eqExceptStart_refl (a : Portfolio) : eqExceptStart a a :=
  ⟨rfl, rfl, rfl, rfl, rfl, rfl, rfl, rfl⟩

theorem eqExceptStart_trans {a b c : Portfolio}
    (h1 : eqExceptStart a b) (h2 : eqExceptStart b c) : eqExceptStart a c := by
  obtain ⟨x1, x2, x3, x4, x5, x6, x7, x8⟩ := h1
  obtain ⟨y1, y2, y3, y4, y5, y6, y7, y8⟩ := h2
  exact ⟨x1.trans y1, x2.trans y2, x3.trans y3, x4.trans y4,
    x5.trans y5, x6.trans y6, x7.trans y7, x8.trans y8⟩

/-- Equality of setups on every field except portfolio_ids (the only
field the enforcement pass rewrites in a setup record). -/
def eqExceptPids (a b : PortfolioSetup) : Prop :=
  a.id = b.id ∧ a.name = b.name ∧ a.description = b.description
  ∧ a.start_date = b.start_date ∧ a.end_date = b.end_date
  ∧ a.created_at = b.created_at ∧ a.updated_at = b.updated_at

theorem eqExceptPids_refl (a : PortfolioSetup) : eqExceptPids a a :=
  ⟨rfl, rfl, rfl, rfl, rfl, rfl, rfl⟩

theorem eqExceptPids_trans {a b c : PortfolioSetup}
    (h1 : eqExceptPids a b) (h2 : eqExceptPids b c) : eqExceptPids a c := by
  obtain ⟨x1, x2, x3, x4, x5, x6, x7⟩ := h1
  obtain ⟨y1, y2, y3, y4, y5, y6, y7⟩ := h2
  exact ⟨x1.trans y1, x2.trans y2, x3.trans y3, x4.trans y4, x5.trans y5,
    x6.trans y6, x7.trans y7⟩

/-- The portfolios dict after a pass: same keys, entries unchanged except
possibly their start_date. -/
def portfoliosRel (cur orig : Dict String Portfolio) : Prop :=
  dkeys cur = dkeys orig
  ∧ ∀ pid pf, dlookup orig pid = some pf →
      ∃ pf', dlookup cur pid = some pf' ∧ eqExceptStart pf' pf

theorem portfoliosRel_refl (m : Dict String Portfolio) : portfoliosRel m m :=
  ⟨rfl, fun _ pf h => ⟨pf, h, eqExceptStart_refl pf⟩⟩

theorem portfoliosRel_trans {a b c : Dict String Portfolio}
    (h1 : portfoliosRel a b) (h2 : portfoliosRel b c) : portfoliosRel a c := by
  refine ⟨h1.1.trans h2.1, ?_⟩
  intro pid pf hpf
  obtain ⟨pf1, hl1, he1⟩ := h2.2 pid pf hpf
  obtain ⟨pf2, hl2, he2⟩ := h1.2 pid pf1 hl1
  exact ⟨pf2, hl2, eqExceptStart_trans he2 he1⟩

def setupsRel (cur orig : Dict String PortfolioSetup) : Prop :=
  dkeys cur = dkeys orig
  ∧ ∀ sid su, dlookup orig sid = some su →
      ∃ su', dlookup cur sid = some su' ∧ eqExceptPids su' su

theorem setupsRel_refl (m : Dict String PortfolioSetup) : setupsRel m m :=
  ⟨rfl, fun _ su h => ⟨su, h, eqExceptPids_refl su⟩⟩

theorem setupsRel_trans {a b c : Dict String PortfolioSetup}
    (h1 : setupsRel a b) (h2 : setupsRel b c) : setupsRel a c := by
  refine ⟨h1.1.trans h2.1, ?_⟩
  intro sid su hsu
  obtain ⟨su1, hl1, he1⟩ := h2.2 sid su hsu
  obtain ⟨su2, hl2, he2⟩ := h1.2 sid su1 hl1
  exact ⟨su2, hl2, eqExceptPids_trans he2 he1⟩

theorem isSome_eq_of_dkeys_eq {κ V1 V2 : Type} [DecidableEq κ]
    (m1 : Dict κ V1) (m2 : Dict κ V2) (h : dkeys m1 = dkeys m2) (k : κ) :
    (dlookup m1 k).isSome = (dlookup m2 k).isSome := by
  rw [Bool.eq_iff_iff, ← mem_dkeys_iff_isSome, ← mem_dkeys_iff_isSome, h]

theorem syncStep_fields (sid : String) (start : PyDateTime) (st : StoreState) (pid : String) :
    (syncStep sid start st pid).portfolio_symbols = st.portfolio_symbols
    ∧ (syncStep sid start st pid).setups = st.setups
    ∧ (syncStep sid start st pid).setup_portfolios = st.setup_portfolios := by
  unfold syncStep
  dsimp only
  split
  · exact ⟨rfl, rfl, rfl⟩
  · split
    · exact ⟨rfl, rfl, rfl⟩
    · exact ⟨rfl, rfl, rfl⟩

theorem syncStep_portfolios (sid : String) (start : PyDateTime) (st : StoreState) (pid : String) :
    portfoliosRel (syncStep sid start st pid).portfolios st.portfolios := by
  unfold syncStep
  dsimp only
  split
  · exact portfoliosRel_refl _
  next pf hpf =>
    split
    · exact portfoliosRel_refl _
    · constructor
      · show dkeys (dinsert st.portfolios pid { pf with start_date := start }) = dkeys st.portfolios
        rw [dkeys_dinsert_of_mem]
        rw [mem_dkeys_iff_isSome]
        rw [show dlookup st.portfolios pid = some pf from hpf]
        rfl
      · intro pid2 pf2 hpf2
        by_cases hp : pid = pid2
        · subst hp
          have hpp : pf = pf2 := by
            have h0 : dlookup st.portfolios pid = some pf := hpf
            rw [hpf2] at h0
            exact (Option.some.inj h0).symm
          subst hpp
          refine ⟨{ pf with start_date := start }, ?_, ?_⟩
          · show dlookup (dinsert st.portfolios pid { pf with start_date := start }) pid = _
            rw [dlookup_dinsert_self]
          · exact ⟨rfl, rfl, rfl, rfl, rfl, rfl, rfl, rfl⟩
        · refine ⟨pf2, ?_, eqExceptStart_refl pf2⟩
          show dlookup (dinsert st.portfolios pid { pf with start_date := start }) pid2 = some pf2
          rw [dlookup_dinsert_ne _ _ _ _ hp]
          exact hpf2

theorem syncAssigned_fields (sid : String) (start : PyDateTime) :
    ∀ (assigned : List String) (st : StoreState),
      (syncAssigned sid start st assigned).portfolio_symbols = st.portfolio_symbols
      ∧ (syncAssigned sid start st assigned).setups = st.setups
      ∧ (syncAssigned sid start st assigned).setup_portfolios = st.setup_portfolios := by
  intro assigned
  induction assigned with
  | nil => intro st; exact ⟨rfl, rfl, rfl⟩
  | cons pid rest ih =>
      intro st
      rw [syncAssigned, List.foldl_cons]
      have h2 := ih (syncStep sid start st pid)
      rw [syncAssigned] at h2
      have h1 := syncStep_fields sid start st pid
      exact ⟨h2.1.trans h1.1, h2.2.1.trans h1.2.1, h2.2.2.trans h1.2.2⟩

theorem syncAssigned_portfolios (sid : String) (start : PyDateTime) :
    ∀ (assigned : List String) (st : StoreState),
      portfoliosRel (syncAssigned sid start st assigned).portfolios st.portfolios := by
  intro assigned
  induction assigned with
  | nil => intro st; exact portfoliosRel_refl _
  | cons pid rest ih =>
      intro st
      rw [syncAssigned, List.foldl_cons]
      have h2 := ih (syncStep sid start st pid)
      rw [syncAssigned] at h2
      exact portfoliosRel_trans h2 (syncStep_portfolios sid start st pid)

theorem enforceStep_psym (st : StoreState) (sid : String) :
    (enforceStep st sid).portfolio_symbols = st.portfolio_symbols := by
  unfold enforceStep
  dsimp only
  split
  · rfl
  · exact (syncAssigned_fields _ _ _ _).1

theorem enforceStep_portfolios (st : StoreState) (sid : String) :
    portfoliosRel (enforceStep st sid).portfolios st.portfolios := by
  unfold enforceStep
  dsimp only
  split
  · exact portfoliosRel_refl _
  · exact syncAssigned_portfolios _ _ _ _

theorem enforceStep_setups (st : StoreState) (sid : String) :
    setupsRel (enforceStep st sid).setups st.setups := by
  unfold enforceStep
  dsimp only
  split
  · exact setupsRel_refl _
  next setup hsu =>
    rw [(syncAssigned_fields _ _ _ _).2.1]
    constructor
    · show dkeys (dinsert st.setups sid { setup with portfolio_ids := _ }) = dkeys st.setups
      rw [dkeys_dinsert_of_mem]
      rw [mem_dkeys_iff_isSome]
      rw [show dlookup st.setups sid = some setup from hsu]
      rfl
    · intro s su hlu
      by_cases h : sid = s
      · subst h
        have hss : setup = su := by
          have h0 : dlookup st.setups sid = some setup := hsu
          rw [hlu] at h0
          exact (Option.some.inj h0).symm
        subst hss
        exact ⟨_, dlookup_dinsert_self _ _ _, ⟨rfl, rfl, rfl, rfl, rfl, rfl, rfl⟩⟩
      · refine ⟨su, ?_, eqExceptPids_refl su⟩
        show dlookup (dinsert st.setups sid _) s = some su
        rw [dlookup_dinsert_ne _ _ _ _ h]
        exact hlu

theorem enforceStep_sp_other (st : StoreState) (sid s : String) (h : s ≠ sid) :
    dlookup (enforceStep st sid).setup_portfolios s = dlookup st.setup_portfolios s := by
  unfold enforceStep
  dsimp only
  split
  · show dlookup (dinsert st.setup_portfolios sid _) s = _
    rw [dlookup_dinsert_ne _ _ _ _ (Ne.symm h)]
  · rw [(syncAssigned_fields _ _ _ _).2.2]
    show dlookup (dinsert st.setup_portfolios sid _) s = _
    rw [dlookup_dinsert_ne _ _ _ _ (Ne.symm h)]

/-- The canonical pruned-and-sorted membership an enforcement step writes
for one setup. -/
def prunedMembership (st : StoreState) (sid : String) : List String :=
  pySorted (((dlookup st.setup_portfolios sid).getD []).filter
    (fun pid => (dlookup st.portfolios pid).isSome))

theorem enforceStep_sp_self (st : StoreState) (sid : String) :
    dlookup (enforceStep st sid).setup_portfolios sid = some (prunedMembership st sid) := by
  unfold enforceStep prunedMembership
  dsimp only
  split
  · exact dlookup_dinsert_self _ _ _
  · rw [(syncAssigned_fields _ _ _ _).2.2]
    exact dlookup_dinsert_self _ _ _

theorem foldl_enforceStep_psym :
    ∀ (sids : List String) (st : StoreState),
      (sids.foldl enforceStep st).portfolio_symbols = st.portfolio_symbols := by
  intro sids
  induction sids with
  | nil => intro st; rfl
  | cons s rest ih =>
      intro st
      rw [List.foldl_cons]
      exact (ih (enforceStep st s)).trans (enforceStep_psym st s)

theorem foldl_enforceStep_portfolios :
    ∀ (sids : List String) (st : StoreState),
      portfoliosRel (sids.foldl enforceStep st).portfolios st.portfolios := by
  intro sids
  induction sids with
  | nil => intro st; exact portfoliosRel_refl _
  | cons s rest ih =>
      intro st
      rw [List.foldl_cons]
      exact portfoliosRel_trans (ih (enforceStep st s)) (enforceStep_portfolios st s)

theorem foldl_enforceStep_setups :
    ∀ (sids : List String) (st : StoreState),
      setupsRel (sids.foldl enforceStep st).setups st.setups := by
  intro sids
  induction sids with
  | nil => intro st; exact setupsRel_refl _
  | cons s rest ih =>
      intro st
      rw [List.foldl_cons]
      exact setupsRel_trans (ih (enforceStep st s)) (enforceStep_setups st s)

theorem foldl_enforceStep_sp_not_mem :
    ∀ (sids : List String) (st : StoreState) (s : String), s ∉ sids →
      dlookup (sids.foldl enforceStep st).setup_portfolios s = dlookup st.setup_portfolios s := by
  intro sids
  induction sids with
  | nil => intro st s _; rfl
  | cons s0 rest ih =>
      intro st s hs
      rw [List.mem_cons] at hs
      push_neg at hs
      rw [List.foldl_cons]
      rw [ih (enforceStep st s0) s hs.2]
      exact enforceStep_sp_other st s0 s hs.1

theorem foldl_enforceStep_sp_mem :
    ∀ (sids : List String) (st : StoreState), sids.Nodup →
      ∀ s ∈ sids,
        dlookup (sids.foldl enforceStep st).setup_portfolios s = some (prunedMembership st s) := by
  intro sids
  induction sids with
  | nil => intro st _ s hs; exact absurd hs (List.not_mem_nil s)
  | cons s0 rest ih =>
      intro st hnd s hs
      rw [List.foldl_cons]
      rcases List.mem_cons.1 hs with hEq | hmem
      · subst hEq
        rw [foldl_enforceStep_sp_not_mem rest (enforceStep st s) s (List.nodup_cons.1 hnd).1]
        exact enforceStep_sp_self st s
      · have hne : s ≠ s0 := by
          intro hc
          subst hc
          exact (List.nodup_cons.1 hnd).1 hmem
        rw [ih (enforceStep st s0) (List.nodup_cons.1 hnd).2 s hmem]
        congr 1
        unfold prunedMembership
        rw [enforceStep_sp_other st s0 s hne]
        congr 1
        apply List.filter_congr
        intro pid _
        exact isSome_eq_of_dkeys_eq _ _ (enforceStep_portfolios st s0).1 pid

theorem enforce_psym (st : StoreState) :
    (enforceSetupConstraints st).portfolio_symbols = st.portfolio_symbols := by
  unfold enforceSetupConstraints
  split
  · rfl
  · exact foldl_enforceStep_psym _ st

theorem enforce_portfolios (st : StoreState) :
    portfoliosRel (enforceSetupConstraints st).portfolios st.portfolios := by
  unfold enforceSetupConstraints
  split
  · exact portfoliosRel_refl _
  · exact foldl_enforceStep_portfolios _ st

theorem enforce_setups (st : StoreState) :
    setupsRel (enforceSetupConstraints st).setups st.setups := by
  unfold enforceSetupConstraints
  split
  · exact setupsRel_refl _
  · exact foldl_enforceStep_setups _ st

theorem enforce_sp_mem (st : StoreState) (hnd : (dkeys st.setups).Nodup) (s : String)
    (hs : s ∈ dkeys st.setups) :
    dlookup (enforceSetupConstraints st).setup_portfolios s = some (prunedMembership st s) := by
  unfold enforceSetupConstraints
  split
  next hcase =>
    rw [hcase] at hs
    exact absurd hs (List.not_mem_nil s)
  · exact foldl_enforceStep_sp_mem _ st hnd s hs

theorem enforce_sp_not_mem (st : StoreState) (s : String) (hs : s ∉ dkeys st.setups) :
    dlookup (enforceSetupConstraints st).setup_portfolios s = dlookup st.setup_portfolios s := by
  unfold enforceSetupConstraints
  split
  · rfl
  · exact foldl_enforceStep_sp_not_mem _ st s hs

theorem dkeys_eq_nil_iff {κ2 V2 : Type} [DecidableEq κ2] (m : Dict κ2 V2) :
    dkeys m = [] ↔ m = [] := by
  unfold dkeys
  exact List.map_eq_nil_iff

theorem derase_eq_nil_of_dkeys_singleton {κ2 V2 : Type} [DecidableEq κ2]
    (m : Dict κ2 V2) (k : κ2) (h : dkeys m = [k]) : derase m k = [] := by
  match m with
  | [] => rfl
  | [(k', v)] =>
      obtain rfl : k' = k := by simpa [dkeys] using h
      simp [derase]
  | (a, x) :: (b, y) :: tl => simp [dkeys] at h

/-! ### Claim C8: deleteSetup -/

/-- Claim C8: deleteSetup fails NotFound on an unknown id and NotEmpty on
a setup that still contains portfolios, leaving the state unchanged in
both cases; a successful delete always leaves at least one setup, and
deleting the last setup leaves exactly the fresh default one. -/
theorem claim_C8_delete_setup (st : StoreState) (sid : String) (now : Int) (freshId : String) :
    (dlookup st.setups sid = none → deleteSetup st sid now freshId = .error (.setupNotFound, st))
    ∧ (∀ su, dlookup st.setups sid = some su →
        (dlookup st.setup_portfolios sid).getD [] ≠ [] →
        deleteSetup st sid now freshId = .error (.notEmpty, st))
    ∧ (∀ st', deleteSetup st sid now freshId = .ok st' → st'.setups ≠ [])
    ∧ (∀ su, dlookup st.setups sid = some su →
        (dlookup st.setup_portfolios sid).getD [] = [] →
        dkeys st.setups = [sid] →
        ∃ st', deleteSetup st sid now freshId = .ok st' ∧ dkeys st'.setups = [freshId]) := by
  refine ⟨?_, ?_, ?_, ?_⟩
  · intro h
    unfold deleteSetup
    rw [h]
  · intro su hsu hne
    unfold deleteSetup
    rw [hsu]
    dsimp only
    rw [if_pos hne]
  · intro st' h
    unfold deleteSetup at h
    rcases hsu : dlookup st.setups sid with _ | su
    · rw [hsu] at h
      exact absurd h (by simp)
    · rw [hsu] at h
      dsimp only at h
      by_cases hne : (dlookup st.setup_portfolios sid).getD [] ≠ []
      · rw [if_pos hne] at h
        exact absurd h (by simp)
      · rw [if_neg hne] at h
        intro hc
        have hkeys : dkeys st'.setups = [] := by rw [hc]; rfl
        by_cases hempty : derase st.setups sid = []
        · rw [if_pos hempty] at h
          have hok := Except.ok.inj h
          rw [← hok, (enforce_setups _).1] at hkeys
          simp [hempty, dinsert, dkeys] at hkeys
        · rw [if_neg hempty] at h
          have hok := Except.ok.inj h
          rw [← hok, (enforce_setups _).1] at hkeys
          exact hempty ((dkeys_eq_nil_iff _).1 hkeys)
  · intro su hsu hmem hone
    unfold deleteSetup
    rw [hsu]
    dsimp only
    rw [if_neg (by simp [hmem])]
    have hempty : derase st.setups sid = [] := derase_eq_nil_of_dkeys_singleton _ _ hone
    rw [if_pos hempty]
    refine ⟨_, rfl, ?_⟩
    rw [(enforce_setups _).1]
    simp [hempty, dinsert, dkeys]

theorem claim_C8_witness :
    (∀ st', deleteSetup
        (⟨[], [], [("s1", ⟨"s1", "S", none, ⟨0, some 0⟩, ⟨0, some 0⟩, ⟨0, some 0⟩, ⟨0, some 0⟩, []⟩)],
          [("s1", [])], []⟩ : StoreState) "s1" 9 "fresh" = .ok st' → st'.setups ≠ [])
    ∧ ∃ st', deleteSetup
        (⟨[], [], [("s1", ⟨"s1", "S", none, ⟨0, some 0⟩, ⟨0, some 0⟩, ⟨0, some 0⟩, ⟨0, some 0⟩, []⟩)],
          [("s1", [])], []⟩ : StoreState) "s1" 9 "fresh" = .ok st'
        ∧ dkeys st'.setups = ["fresh"] := by
  constructor
  · exact (claim_C8_delete_setup _ "s1" 9 "fresh").2.2.1
  · exact (claim_C8_delete_setup _ "s1" 9 "fresh").2.2.2
      ⟨"s1", "S", none, ⟨0, some 0⟩, ⟨0, some 0⟩, ⟨0, some 0⟩, ⟨0, some 0⟩, []⟩
      (by decide) (by decide) (by decide)

/-! ### Claim C10: UTC normalization of setup dates -/

theorem normalizeDatetime_tz (now : Int) (v : Option PyDateTime) :
    (normalizeDatetime (utcNow now) v).tz = some 0 := by
  unfold normalizeDatetime
  rcases v with _ | d
  · rfl
  · dsimp only [Option.getD]
    rcases ht : d.tz with _ | o <;> rfl

theorem applySetupPatch_start_tz (setup : PortfolioSetup) (payload : SetupUpdatePayload)
    (now : Int) (u : PortfolioSetup)
    (h : applySetupPatch setup payload (utcNow now) = .ok u) (hs : payload.start_date ≠ none) :
    u.start_date.tz = some 0 := by
  rcases hsd : payload.start_date with _ | sd0
  · exact absurd hsd hs
  unfold applySetupPatch at h
  rw [hsd] at h
  dsimp only at h
  rcases hed : payload.end_date with _ | ed0
  · rw [hed] at h
    dsimp only at h
    have hok := Except.ok.inj h
    rw [← hok]
    exact normalizeDatetime_tz now (some sd0)
  · rw [hed] at h
    dsimp only at h
    split at h
    · exact absurd h (by simp)
    · have hok := Except.ok.inj h
      rw [← hok]
      exact normalizeDatetime_tz now (some sd0)

theorem applySetupPatch_end_tz (setup : PortfolioSetup) (payload : SetupUpdatePayload)
    (now : Int) (u : PortfolioSetup)
    (h : applySetupPatch setup payload (utcNow now) = .ok u) (he : payload.end_date ≠ none) :
    u.end_date.tz = some 0 := by
  rcases hed : payload.end_date with _ | ed0
  · exact absurd hed he
  unfold applySetupPatch at h
  rw [hed] at h
  dsimp only at h
  split at h
  · exact absurd h (by simp)
  · have hok := Except.ok.inj h
    rw [← hok]
    exact normalizeDatetime_tz now (some ed0)

/-- Claim C10: _normalize_datetime always yields an aware UTC datetime -
a naive input is interpreted as UTC keeping its wall clock, an aware
input is converted preserving its instant, and a missing value defaults
to the current UTC time; consequently the setup dates stored by
create_setup, and the dates a patch supplies to update_setup, land in
the store UTC-normalized. -/
theorem claim_C10_utc_normalization :
    (∀ (now : Int) (v : Option PyDateTime), (normalizeDatetime (utcNow now) v).tz = some 0)
    ∧ (∀ (now : Int) (d : PyDateTime), d.tz = none →
        normalizeDatetime (utcNow now) (some d) = ⟨d.wall, some 0⟩)
    ∧ (∀ (now : Int) (d : PyDateTime) (o : Int), d.tz = some o →
        normalizeDatetime (utcNow now) (some d) = ⟨d.wall - o, some 0⟩
        ∧ dtKey (normalizeDatetime (utcNow now) (some d)) = dtKey d)
    ∧ (∀ now : Int, normalizeDatetime (utcNow now) none = utcNow now)
    ∧ (∀ (st : StoreState) (payload : SetupCreatePayload) (now : Int) (sid : String)
        (st' : StoreState),
        createSetup st payload now sid = .ok st' →
        ∃ su, dlookup st'.setups sid = some su
          ∧ su.start_date.tz = some 0 ∧ su.end_date.tz = some 0)
    ∧ (∀ (st : StoreState) (sid : String) (payload : SetupUpdatePayload) (now : Int)
        (st' : StoreState),
        updateSetup st sid payload now = .ok st' →
        ∃ su, dlookup st'.setups sid = some su
          ∧ (payload.start_date ≠ none → su.start_date.tz = some 0)
          ∧ (payload.end_date ≠ none → su.end_date.tz = some 0)) := by
  refine ⟨normalizeDatetime_tz, ?_, ?_, ?_, ?_, ?_⟩
  · intro now d hd
    unfold normalizeDatetime
    dsimp only [Option.getD]
    rw [hd]
  · intro now d o hd
    have hmain : normalizeDatetime (utcNow now) (some d) = ⟨d.wall - o, some 0⟩ := by
      unfold normalizeDatetime
      dsimp only [Option.getD]
      rw [hd]
    refine ⟨hmain, ?_⟩
    rw [hmain]
    simp [dtKey, hd]
  · intro now
    unfold normalizeDatetime
    dsimp only [Option.getD]
    simp [utcNow]
  · intro st payload now sid st' h
    unfold createSetup at h
    have hok := Except.ok.inj h
    rw [← hok]
    obtain ⟨su', hlk, heq⟩ := (enforce_setups ({ st with
        setups := dinsert st.setups sid (buildNewSetup payload (utcNow now) sid)
        setup_portfolios := dinsert st.setup_portfolios sid [] } : StoreState)).2
      sid (buildNewSetup payload (utcNow now) sid) (dlookup_dinsert_self _ _ _)
    refine ⟨su', hlk, ?_, ?_⟩
    · rw [heq.2.2.2.1]
      exact normalizeDatetime_tz now payload.start_date
    · rw [heq.2.2.2.2.1]
      show (buildNewSetup payload (utcNow now) sid).end_date.tz = some 0
      unfold buildNewSetup
      dsimp only
      split
      · exact normalizeDatetime_tz now payload.start_date
      · exact normalizeDatetime_tz now payload.end_date
  · intro st sid payload now st' h
    unfold updateSetup at h
    rcases hsu : dlookup st.setups sid with _ | setup
    · rw [hsu] at h
      exact absurd h (by simp)
    rw [hsu] at h
    dsimp only at h
    rcases hap : applySetupPatch setup payload (utcNow now) with e | updated
    · rw [hap] at h
      exact absurd h (by simp)
    rw [hap] at h
    dsimp only at h
    have hok := Except.ok.inj h
    rw [← hok]
    obtain ⟨su', hlk, heq⟩ := (setupsRel_trans
      (enforce_setups (enforceSetupConstraints
        ({ st with setups := dinsert st.setups sid updated } : StoreState)))
      (enforce_setups ({ st with setups := dinsert st.setups sid updated } : StoreState))).2
      sid updated (dlookup_dinsert_self _ _ _)
    refine ⟨su', hlk, ?_, ?_⟩
    · intro hne
      rw [heq.2.2.2.1]
      exact applySetupPatch_start_tz setup payload now updated hap hne
    · intro hne
      rw [heq.2.2.2.2.1]
      exact applySetupPatch_end_tz setup payload now updated hap hne

def c10state : StoreState :=
  { portfolios := [], portfolio_symbols := [],
    setups := dinsert [] "s" (buildNewSetup ⟨"N", none, some ⟨3, some 60⟩, none⟩ (utcNow 5) "s"),
    setup_portfolios := dinsert [] "s" [], portfolio_to_setup := [] }

theorem claim_C10_witness :
    normalizeDatetime (utcNow 5) (some ⟨7, none⟩) = ⟨7, some 0⟩
    ∧ ∃ su, dlookup (enforceSetupConstraints c10state).setups "s" = some su
        ∧ su.start_date.tz = some 0 ∧ su.end_date.tz = some 0 := by
  constructor
  · exact claim_C10_utc_normalization.2.1 5 ⟨7, none⟩ rfl
  · exact claim_C10_utc_normalization.2.2.2.2.1 ⟨[], [], [], [], []⟩
      ⟨"N", none, some ⟨3, some 60⟩, none⟩ 5 "s" _ rfl

/-! ### Claim C1: budget failures and state preservation -/

theorem recalcSymbolWeights_fields (st : StoreState) (pid : String) (syms : List String)
    (alloc : Option (Dict String RawVal)) :
    (recalcSymbolWeights st pid syms alloc).2.portfolios = st.portfolios
    ∧ (recalcSymbolWeights st pid syms alloc).2.setups = st.setups
    ∧ (recalcSymbolWeights st pid syms alloc).2.setup_portfolios = st.setup_portfolios
    ∧ (recalcSymbolWeights st pid syms alloc).2.portfolio_to_setup = st.portfolio_to_setup := by
  unfold recalcSymbolWeights
  dsimp only
  split <;> exact ⟨rfl, rfl, rfl, rfl⟩

/-- Claim C1 (amended): a createPortfolio call whose requested allocation
exceeds the remaining setup budget fails with BudgetExceeded and leaves
the state exactly unchanged; the same holds for updatePortfolio when the
patch supplies no symbols or allocations; and every updatePortfolio
failure leaves the portfolios, setups, memberships and owner map exactly
unchanged - but when the patch also supplies symbols or allocations, the
recalculated stored symbol weights written before the budget check can
survive the failed call. -/
theorem claim_C1_budget_failure (st : StoreState) (now : Int) :
    (∀ (sid : String) (payload : PortfolioCreatePayload) (pid : String)
        (su : PortfolioSetup) (total : ℚ),
        dlookup st.setups sid = some su →
        sumAllocationsExcluding st ((dlookup st.setup_portfolios sid).getD []) none = .ok total →
        total + payload.allocation_percent > budgetLimit →
        createPortfolio st sid payload now pid = .error (.budgetExceeded, st))
    ∧ (∀ (pid : String) (payload : PortfolioUpdatePayload) (pf : Portfolio) (sid : String)
        (total r : ℚ),
        dlookup st.portfolios pid = some pf →
        dlookup st.portfolio_to_setup pid = some sid →
        (dlookup st.setups sid).isSome = true →
        payload.start_date = none → payload.symbols = none → payload.allocations = none →
        payload.allocation_percent = some r →
        sumAllocationsExcluding st ((dlookup st.setup_portfolios sid).getD [])
          (some pid) = .ok total →
        total + r > budgetLimit →
        updatePortfolio st pid payload now = .error (.budgetExceeded, st))
    ∧ (∀ (pid : String) (payload : PortfolioUpdatePayload) (e : StoreErr) (st' : StoreState),
        updatePortfolio st pid payload now = .error (e, st') →
        st'.portfolios = st.portfolios ∧ st'.setups = st.setups
        ∧ st'.setup_portfolios = st.setup_portfolios
        ∧ st'.portfolio_to_setup = st.portfolio_to_setup)
    ∧ (∀ (sid : String) (payload : PortfolioCreatePayload) (pid : String) (e : StoreErr)
        (st' : StoreState),
        createPortfolio st sid payload now pid = .error (e, st') → st' = st) := by
  refine ⟨?_, ?_, ?_, ?_⟩
  · intro sid payload pid su total hsu hsum hgt
    unfold createPortfolio
    rw [hsu]
    dsimp only
    unfold validateAllocationBudget
    rw [hsum]
    dsimp only
    rw [if_pos hgt]
  · intro pid payload pf sid total r hpf hp2s hset hsd hsym hall hap hsum hgt
    unfold updatePortfolio
    rw [hpf, hp2s]
    dsimp only
    rw [hset]
    rw [if_neg (by simp)]
    rw [hsd]
    rw [if_neg (by simp)]
    rw [hsym, hall]
    rw [if_neg (by simp), hap]
    dsimp only
    unfold validateAllocationBudget
    rw [hsum]
    dsimp only
    rw [if_pos hgt]
  · intro pid payload e st' h
    unfold updatePortfolio at h
    split at h
    · have hsnd : st = st' := congrArg Prod.snd (Except.error.inj h)
      rw [← hsnd]
      exact ⟨rfl, rfl, rfl, rfl⟩
    split at h
    · have hsnd : st = st' := congrArg Prod.snd (Except.error.inj h)
      rw [← hsnd]
      exact ⟨rfl, rfl, rfl, rfl⟩
    split at h
    · have hsnd : st = st' := congrArg Prod.snd (Except.error.inj h)
      rw [← hsnd]
      exact ⟨rfl, rfl, rfl, rfl⟩
    · dsimp only at h
      split at h
      · have hsnd : st = st' := congrArg Prod.snd (Except.error.inj h)
        rw [← hsnd]
        exact ⟨rfl, rfl, rfl, rfl⟩
      · rcases hap : payload.allocation_percent with _ | r
        · rw [hap] at h
          dsimp only at h
          exact absurd h (by simp)
        · rw [hap] at h
          dsimp only at h
          split at h
          next e2 heq2 =>
            have hsnd := congrArg Prod.snd (Except.error.inj h)
            dsimp only at hsnd
            rw [← hsnd]
            by_cases hcond : payload.symbols ≠ none ∨ payload.allocations ≠ none
            · rw [if_pos hcond]
              dsimp only
              exact recalcSymbolWeights_fields st pid _ payload.allocations
            · rw [if_neg hcond]
              exact ⟨rfl, rfl, rfl, rfl⟩
          · exact absurd h (by simp)
  · intro sid payload pid e st' h
    unfold createPortfolio at h
    split at h
    · exact (congrArg Prod.snd (Except.error.inj h) : st = st').symm
    · dsimp only at h
      split at h
      · exact (congrArg Prod.snd (Except.error.inj h) : st = st').symm
      · exact absurd h (by simp)

def c1state : StoreState :=
  { portfolios :=
      [("p1", ⟨"p1", "P", none, ["A", "B"], 1/2, [("A", 1/2), ("B", 1/2)],
          ⟨0, some 0⟩, ⟨0, some 0⟩, ⟨0, some 0⟩⟩),
       ("p2", ⟨"p2", "Q", none, ["C"], 1/2, [("C", 1)],
          ⟨0, some 0⟩, ⟨0, some 0⟩, ⟨0, some 0⟩⟩)],
    portfolio_symbols := [("p1", [("A", 1/2), ("B", 1/2)]), ("p2", [("C", 1)])],
    setups :=
      [("s1", ⟨"s1", "S", none, ⟨0, some 0⟩, ⟨0, some 0⟩, ⟨0, some 0⟩, ⟨0, some 0⟩,
          ["p1", "p2"]⟩)],
    setup_portfolios := [("s1", ["p1", "p2"])],
    portfolio_to_setup := [("p1", "s1"), ("p2", "s1")] }

def c1payload : PortfolioUpdatePayload :=
  ⟨none, none, none, some [("A", some 3), ("B", some 1)], none, some 1⟩

def c1poststate : StoreState :=
  { c1state with portfolio_symbols := [("p1", [("A", 3/4), ("B", 1/4)]), ("p2", [("C", 1)])] }

/-- Counterexample to claim C1 as stated: this updatePortfolio call fails
with BudgetExceeded, yet the failed call has already overwritten the
stored symbol weights of the target portfolio. -/
theorem claim_C1_counterexample :
    updatePortfolio c1state "p1" c1payload 7 = .error (.budgetExceeded, c1poststate)
    ∧ c1poststate.portfolio_symbols ≠ c1state.portfolio_symbols := by
  constructor
  · with_unfolding_all decide
  · with_unfolding_all decide

theorem claim_C1_witness :
    createPortfolio c1state "s1" ⟨"R", none, ["D"], 1, none, none⟩ 7 "p3"
      = .error (.budgetExceeded, c1state)
    ∧ updatePortfolio c1state "p1" ⟨none, none, none, none, none, some 1⟩ 7
      = .error (.budgetExceeded, c1state) := by
  constructor
  · exact (claim_C1_budget_failure c1state 7).1 "s1" ⟨"R", none, ["D"], 1, none, none⟩ "p3"
      ⟨"s1", "S", none, ⟨0, some 0⟩, ⟨0, some 0⟩, ⟨0, some 0⟩, ⟨0, some 0⟩, ["p1", "p2"]⟩ 1
      (by decide) (by with_unfolding_all decide) (by with_unfolding_all decide)
  · exact (claim_C1_budget_failure c1state 7).2.1 "p1" ⟨none, none, none, none, none, some 1⟩
      ⟨"p1", "P", none, ["A", "B"], 1/2, [("A", 1/2), ("B", 1/2)],
        ⟨0, some 0⟩, ⟨0, some 0⟩, ⟨0, some 0⟩⟩ "s1" (1/2) 1
      (by with_unfolding_all decide) (by decide) (by decide) (by decide) (by decide) (by decide)
      (by decide) (by with_unfolding_all decide) (by with_unfolding_all decide)

/-! ### Claim C9: portfolio start dates are managed by their setup -/

/-- One portfolio's start-date record is synced: it has an owning setup
that exists and its start date equals (as Python datetimes) that setup's
start date. -/
def qOf (st : StoreState) (pid : String) : Prop :=
  ∃ sid su pf, dlookup st.portfolio_to_setup pid = some sid
    ∧ dlookup st.setups sid = some su
    ∧ dlookup st.portfolios pid = some pf
    ∧ pyDtEq pf.start_date su.start_date = true

/-- Every member of every existing setup is start-date synced. -/
def startDateSync (st : StoreState) : Prop :=
  ∀ sid ∈ dkeys st.setups, ∀ pids, dlookup st.setup_portfolios sid = some pids →
    ∀ pid ∈ pids, qOf st pid

theorem syncStep_qOf_ne (sid : String) (start : PyDateTime) (st : StoreState) (pid x : String)
    (hne : x ≠ pid) (h : qOf st x) : qOf (syncStep sid start st pid) x := by
  obtain ⟨sidx, sux, pfx, h1, h2, h3, h4⟩ := h
  unfold syncStep
  dsimp only
  split
  · exact ⟨sidx, sux, pfx,
      by rw [dlookup_dinsert_ne _ _ _ _ (Ne.symm hne)]; exact h1, h2, h3, h4⟩
  · split
    · exact ⟨sidx, sux, pfx,
        by rw [dlookup_dinsert_ne _ _ _ _ (Ne.symm hne)]; exact h1, h2, h3, h4⟩
    · refine ⟨sidx, sux, pfx,
        by rw [dlookup_dinsert_ne _ _ _ _ (Ne.symm hne)]; exact h1, h2, ?_, h4⟩
      show dlookup (dinsert st.portfolios pid _) x = some pfx
      rw [dlookup_dinsert_ne _ _ _ _ (Ne.symm hne)]
      exact h3

theorem syncStep_qOf_self (sid : String) (start : PyDateTime) (st : StoreState) (pid : String)
    (su : PortfolioSetup) (hsu : dlookup st.setups sid = some su)
    (hstart : su.start_date = start) (hmem : (dlookup st.portfolios pid).isSome) :
    qOf (syncStep sid start st pid) pid := by
  unfold syncStep
  dsimp only
  split
  next heq =>
    rw [show dlookup st.portfolios pid = none from heq] at hmem
    exact absurd hmem (by simp)
  next pf heq =>
    split
    next hdt =>
      refine ⟨sid, su, pf, dlookup_dinsert_self _ _ _, hsu, heq, ?_⟩
      rw [hstart]
      exact hdt
    next hdt =>
      refine ⟨sid, su, { pf with start_date := start }, dlookup_dinsert_self _ _ _, hsu, ?_, ?_⟩
      · show dlookup (dinsert st.portfolios pid _) pid = _
        rw [dlookup_dinsert_self]
      · show pyDtEq start su.start_date = true
        rw [hstart]
        exact pyDtEq_refl start

theorem syncAssigned_qOf (sid : String) (start : PyDateTime) :
    ∀ (assigned : List String) (st : StoreState) (su : PortfolioSetup),
      dlookup st.setups sid = some su → su.start_date = start →
      (∀ pid ∈ assigned, (dlookup st.portfolios pid).isSome) →
      (∀ x, qOf st x → qOf (syncAssigned sid start st assigned) x)
      ∧ (∀ x ∈ assigned, qOf (syncAssigned sid start st assigned) x) := by
  intro assigned
  induction assigned with
  | nil =>
      intro st su _ _ _
      exact ⟨fun x h => h, fun x hx => absurd hx (List.not_mem_nil x)⟩
  | cons pid rest ih =>
      intro st su hsu hstart hmem
      have hsu1 : dlookup (syncStep sid start st pid).setups sid = some su := by
        rw [(syncStep_fields sid start st pid).2.1]
        exact hsu
      have hmem1 : ∀ p ∈ rest, (dlookup (syncStep sid start st pid).portfolios p).isSome := by
        intro p hp
        rw [isSome_eq_of_dkeys_eq _ _ (syncStep_portfolios sid start st pid).1]
        exact hmem p (List.mem_cons_of_mem pid hp)
      have hq1 : qOf (syncStep sid start st pid) pid :=
        syncStep_qOf_self sid start st pid su hsu hstart (hmem pid (List.mem_cons_self pid rest))
      have pres1 : ∀ x, qOf st x → qOf (syncStep sid start st pid) x := by
        intro x h
        by_cases hx : x = pid
        · subst hx
          exact hq1
        · exact syncStep_qOf_ne sid start st pid x hx h
      obtain ⟨presR, estR⟩ := ih (syncStep sid start st pid) su hsu1 hstart hmem1
      have hfold : syncAssigned sid start st (pid :: rest)
          = syncAssigned sid start (syncStep sid start st pid) rest := by
        rw [syncAssigned, syncAssigned, List.foldl_cons]
      rw [hfold]
      refine ⟨fun x h => presR x (pres1 x h), ?_⟩
      intro x hx
      rcases List.mem_cons.1 hx with hEq | hxr
      · subst hEq
        exact presR x hq1
      · exact estR x hxr

theorem enforceStep_qOf (st : StoreState) (sid : String) (hmem : sid ∈ dkeys st.setups) :
    (∀ x, qOf st x → qOf (enforceStep st sid) x)
    ∧ (∀ x ∈ prunedMembership st sid, qOf (enforceStep st sid) x) := by
  unfold enforceStep
  dsimp only
  split
  next heq =>
    exfalso
    rw [mem_dkeys_iff_isSome] at hmem
    rw [show dlookup st.setups sid = none from heq] at hmem
    exact absurd hmem (by simp)
  next setup heq =>
    have hsu0 : dlookup st.setups sid = some setup := heq
    have hkey : sid ∈ dkeys st.setups := hmem
    have hsu2 : dlookup (dinsert st.setups sid
        { setup with portfolio_ids := prunedMembership st sid }) sid
        = some { setup with portfolio_ids := prunedMembership st sid } :=
      dlookup_dinsert_self _ _ _
    have hmem2 : ∀ pid ∈ prunedMembership st sid, (dlookup st.portfolios pid).isSome := by
      intro pid hp
      unfold prunedMembership at hp
      rw [mem_pySorted] at hp
      exact (List.mem_filter.1 hp).2
    have hpair := syncAssigned_qOf sid
      ({ setup with portfolio_ids := prunedMembership st sid }).start_date
      (prunedMembership st sid)
      ({ st with
          setups := dinsert st.setups sid { setup with portfolio_ids := prunedMembership st sid }
          setup_portfolios := dinsert st.setup_portfolios sid (prunedMembership st sid) })
      { setup with portfolio_ids := prunedMembership st sid }
      hsu2 rfl hmem2
    constructor
    · intro x hx
      refine hpair.1 x ?_
      obtain ⟨sidx, sux, pfx, h1, h2, h3, h4⟩ := hx
      by_cases hs : sid = sidx
      · subst hs
        have : sux = setup := by
          rw [hsu0] at h2
          exact (Option.some.inj h2).symm
        subst this
        exact ⟨sid, { sux with portfolio_ids := prunedMembership st sid }, pfx, h1,
          dlookup_dinsert_self _ _ _, h3, h4⟩
      · exact ⟨sidx, sux, pfx, h1,
          by show dlookup (dinsert st.setups sid _) sidx = some sux
             rw [dlookup_dinsert_ne _ _ _ _ hs]
             exact h2,
          h3, h4⟩
    · exact hpair.2

theorem foldl_enforceStep_qOf :
    ∀ (sids : List String) (st : StoreState), sids.Nodup →
      (∀ s ∈ sids, s ∈ dkeys st.setups) →
      (∀ x, qOf st x → qOf (sids.foldl enforceStep st) x)
      ∧ (∀ s ∈ sids, ∀ pids,
          dlookup (sids.foldl enforceStep st).setup_portfolios s = some pids →
          ∀ x ∈ pids, qOf (sids.foldl enforceStep st) x) := by
  intro sids
  induction sids with
  | nil =>
      intro st _ _
      exact ⟨fun x h => h, fun s hs => absurd hs (List.not_mem_nil s)⟩
  | cons s0 rest ih =>
      intro st hnd hkeys
      have hk0 : s0 ∈ dkeys st.setups := hkeys s0 (List.mem_cons_self s0 rest)
      have hstep := enforceStep_qOf st s0 hk0
      have hkeys1 : ∀ s ∈ rest, s ∈ dkeys (enforceStep st s0).setups := by
        intro s hs
        rw [(enforceStep_setups st s0).1]
        exact hkeys s (List.mem_cons_of_mem s0 hs)
      obtain ⟨presR, estR⟩ := ih (enforceStep st s0) (List.nodup_cons.1 hnd).2 hkeys1
      rw [List.foldl_cons]
      constructor
      · intro x h
        exact presR x (hstep.1 x h)
      · intro s hs pids hpids x hx
        rcases List.mem_cons.1 hs with hEq | hsr
        · subst hEq
          rw [foldl_enforceStep_sp_not_mem rest (enforceStep st s) s
            (List.nodup_cons.1 hnd).1] at hpids
          rw [enforceStep_sp_self st s] at hpids
          have hxm : x ∈ prunedMembership st s := by
            rw [Option.some.inj hpids]
            exact hx
          exact presR x (hstep.2 x hxm)
        · exact estR s hsr pids hpids x hx

theorem enforce_startDateSync (st : StoreState) (hnd : (dkeys st.setups).Nodup) :
    startDateSync (enforceSetupConstraints st) := by
  unfold enforceSetupConstraints
  split
  next hcase =>
    intro sid hsid
    rw [hcase] at hsid
    exact absurd hsid (List.not_mem_nil sid)
  · intro sid hsid pids hpids x hx
    have hkeys : dkeys ((dkeys st.setups).foldl enforceStep st).setups = dkeys st.setups :=
      (foldl_enforceStep_setups (dkeys st.setups) st).1
    rw [hkeys] at hsid
    exact (foldl_enforceStep_qOf (dkeys st.setups) st hnd (fun s hs => hs)).2
      sid hsid pids hpids x hx

theorem updateSetupMetadata_setups_nodup (st : StoreState) (sid : String) (now : PyDateTime)
    (h : (dkeys st.setups).Nodup) : (dkeys (updateSetupMetadata st sid now).setups).Nodup := by
  unfold updateSetupMetadata
  dsimp only
  split
  · exact h
  · exact nodup_dkeys_dinsert _ _ _ h

/-- Every successful mutation's post-state is the enforcement pass applied
to an intermediate state whose setups dict keeps unique keys. -/
theorem applyOp_ok_shape (st : StoreState) (op : MutOp) (st2 : StoreState)
    (h : applyOp st op = .ok st2) :
    ∃ X, st2 = enforceSetupConstraints X
      ∧ ((dkeys st.setups).Nodup → (dkeys X.setups).Nodup) := by
  cases op with
  | createSetupOp payload nowI sid =>
      unfold applyOp createSetup at h
      refine ⟨_, (Except.ok.inj h).symm, ?_⟩
      intro hnd
      exact nodup_dkeys_dinsert _ _ _ hnd
  | updateSetupOp sid payload nowI =>
      unfold applyOp updateSetup at h
      dsimp only at h
      split at h
      · exact absurd h (by simp)
      next setup heq =>
        rcases hap : applySetupPatch setup payload (utcNow nowI) with e | updated
        · rw [hap] at h
          exact absurd h (by simp)
        · rw [hap] at h
          dsimp only at h
          refine ⟨_, (Except.ok.inj h).symm, ?_⟩
          intro hnd
          rw [(enforce_setups _).1]
          exact nodup_dkeys_dinsert _ _ _ hnd
  | deleteSetupOp sid nowI freshId =>
      unfold applyOp deleteSetup at h
      dsimp only at h
      split at h
      · exact absurd h (by simp)
      · split at h
        · exact absurd h (by simp)
        · refine ⟨_, (Except.ok.inj h).symm, ?_⟩
          intro hnd
          split
          · exact nodup_dkeys_dinsert _ _ _ (nodup_dkeys_derase _ _ hnd)
          · exact nodup_dkeys_derase _ _ hnd
  | createPortfolioOp sid payload nowI pid =>
      unfold applyOp createPortfolio at h
      dsimp only at h
      split at h
      · exact absurd h (by simp)
      next setup heq =>
        split at h
        · exact absurd h (by simp)
        · refine ⟨_, (Except.ok.inj h).symm, ?_⟩
          intro hnd
          exact updateSetupMetadata_setups_nodup _ _ _ hnd
  | updatePortfolioOp pid payload nowI =>
      unfold applyOp updatePortfolio at h
      dsimp only at h
      split at h
      · exact absurd h (by simp)
      split at h
      · exact absurd h (by simp)
      split at h
      · exact absurd h (by simp)
      · split at h
        · exact absurd h (by simp)
        · rcases hap : payload.allocation_percent with _ | r
          · rw [hap] at h
            dsimp only at h
            refine ⟨_, (Except.ok.inj h).symm, ?_⟩
            intro hnd
            apply updateSetupMetadata_setups_nodup
            dsimp only
            split
            · exact (recalcSymbolWeights_fields st pid _ _).2.1 ▸ hnd
            · exact hnd
          · rw [hap] at h
            dsimp only at h
            split at h
            · exact absurd h (by simp)
            · refine ⟨_, (Except.ok.inj h).symm, ?_⟩
              intro hnd
              apply updateSetupMetadata_setups_nodup
              dsimp only
              split
              · exact (recalcSymbolWeights_fields st pid _ _).2.1 ▸ hnd
              · exact hnd
  | deletePortfolioOp pid nowI =>
      unfold applyOp deletePortfolio at h
      dsimp only at h
      split at h
      · exact absurd h (by simp)
      · rcases hsid : dlookup st.portfolio_to_setup pid with _ | sid
        · rw [hsid] at h
          dsimp only at h
          refine ⟨_, (Except.ok.inj h).symm, ?_⟩
          intro hnd
          exact hnd
        · rw [hsid] at h
          dsimp only at h
          refine ⟨_, (Except.ok.inj h).symm, ?_⟩
          intro hnd
          split
          · exact updateSetupMetadata_setups_nodup _ _ _ hnd
          · exact hnd

theorem orphanStep_setups (first : String) (st : StoreState) (pid : String) :
    (orphanStep first st pid).setups = st.setups := by
  unfold orphanStep
  split
  · split
    · rfl
    · rfl
  · rfl

theorem orphanFold_setups :
    ∀ (pids : List String) (st : StoreState) (first : String),
      (pids.foldl (orphanStep first) st).setups = st.setups := by
  intro pids
  induction pids with
  | nil => intro st first; rfl
  | cons p rest ih =>
      intro st first
      rw [List.foldl_cons, ih (orphanStep first st p) first, orphanStep_setups]

theorem orphanPass_setups (st0 : StoreState) : (orphanPass st0).setups = st0.setups := by
  unfold orphanPass
  split
  · rfl
  · exact orphanFold_setups _ _ _

theorem nodup_dkeys_ite_fst {V β : Type} (c : Prop) [Decidable c]
    (x y : Dict String V × β)
    (hx : (dkeys x.1).Nodup) (hy : (dkeys y.1).Nodup) :
    (dkeys (if c then x else y).1).Nodup := by
  split
  · exact hx
  · exact hy

theorem loadSetupsFold_nodup (now : PyDateTime) :
    ∀ (rows : List SetupRow) (acc : Dict String PortfolioSetup × Dict String (List String)),
      (dkeys acc.1).Nodup → (dkeys (rows.foldl (loadSetupsStep now) acc).1).Nodup := by
  intro rows
  induction rows with
  | nil => intro acc h; exact h
  | cons r rest ih =>
      intro acc h
      rw [List.foldl_cons]
      exact ih _ (nodup_dkeys_dinsert _ _ _ h)

/-- Claim C9: updatePortfolio rejects every patch that supplies a start
date, and after the enforcement pass - hence after every successful
mutation and after every load - every member portfolio of every existing
setup carries exactly its owning setup's start date. -/
theorem claim_C9_start_date_managed :
    (∀ (st : StoreState) (pid : String) (payload : PortfolioUpdatePayload) (now : Int),
        payload.start_date ≠ none →
        ∃ e st2, updatePortfolio st pid payload now = .error (e, st2))
    ∧ (∀ st : StoreState, (dkeys st.setups).Nodup →
        startDateSync (enforceSetupConstraints st))
    ∧ (∀ (st : StoreState) (op : MutOp) (st2 : StoreState), (dkeys st.setups).Nodup →
        applyOp st op = .ok st2 → startDateSync st2)
    ∧ (∀ (rows : PersistedRows) (now : Int) (defaultId fallbackId : String),
        startDateSync (loadStore rows now defaultId fallbackId)) := by
  refine ⟨?_, fun st hnd => enforce_startDateSync st hnd, ?_, ?_⟩
  · intro st pid payload now hne
    unfold updatePortfolio
    split
    · exact ⟨_, _, rfl⟩
    split
    · exact ⟨_, _, rfl⟩
    split
    · exact ⟨_, _, rfl⟩
    · dsimp only
      exact ⟨_, _, rfl⟩
  · intro st op st2 hnd h
    obtain ⟨X, rfl, hX⟩ := applyOp_ok_shape st op st2 h
    exact enforce_startDateSync X (hX hnd)
  · intro rows nowI dId fId
    unfold loadStore
    dsimp only
    apply enforce_startDateSync
    rw [orphanPass_setups]
    exact nodup_dkeys_ite_fst _ _ _
      (nodup_dkeys_dinsert _ _ _ (nodup_dkeys_ite_fst _ _ _
        (loadSetupsFold_nodup _ _ ([], []) (by simp [dkeys]))
        (by simp [dkeys])))
      (nodup_dkeys_ite_fst _ _ _
        (loadSetupsFold_nodup _ _ ([], []) (by simp [dkeys]))
        (by simp [dkeys]))

def c9state : StoreState :=
  { portfolios :=
      [("p", ⟨"p", "P", none, ["A"], 1/2, [("A", 1)], ⟨1, some 0⟩, ⟨0, some 0⟩, ⟨0, some 0⟩⟩)],
    portfolio_symbols := [("p", [("A", 1)])],
    setups :=
      [("s", ⟨"s", "S", none, ⟨0, some 0⟩, ⟨9, some 0⟩, ⟨0, some 0⟩, ⟨0, some 0⟩, ["p"]⟩)],
    setup_portfolios := [("s", ["p"])],
    portfolio_to_setup := [("p", "s")] }

def c9patch : PortfolioUpdatePayload :=
  ⟨none, none, none, none, some ⟨3, some 0⟩, none⟩

def c9rows : PersistedRows :=
  ⟨[⟨"p", some "P", none, some (1/2), some ⟨1, some 0⟩, some ⟨0, some 0⟩, some ⟨0, some 0⟩⟩],
   [⟨"p", "A", some 1⟩],
   [⟨"s", some "S", none, some ⟨0, some 0⟩, some ⟨9, some 0⟩, some ⟨0, some 0⟩, some ⟨0, some 0⟩⟩],
   [⟨"s", "p"⟩]⟩

def c9delResult : StoreState :=
  { portfolios := [], portfolio_symbols := [],
    setups := [("s", ⟨"s", "S", none, ⟨0, some 0⟩, ⟨9, some 0⟩, ⟨0, some 0⟩, ⟨7, some 0⟩, []⟩)],
    setup_portfolios := [("s", [])], portfolio_to_setup := [] }

theorem claim_C9_witness :
    (∃ e st2, updatePortfolio c9state "p" c9patch 7 = .error (e, st2))
    ∧ startDateSync (enforceSetupConstraints c9state)
    ∧ startDateSync c9delResult
    ∧ startDateSync (loadStore c9rows 7 "d" "f") := by
  refine ⟨claim_C9_start_date_managed.1 c9state "p" c9patch 7 (by decide),
    claim_C9_start_date_managed.2.1 c9state (by decide),
    claim_C9_start_date_managed.2.2.1 c9state (.deletePortfolioOp "p" 7) c9delResult (by decide)
      (by with_unfolding_all decide),
    claim_C9_start_date_managed.2.2.2 c9rows 7 "d" "f"⟩

/-! ### Claim C3: orphan reassignment -/

/-- pid is assigned to an existing setup and appears in its membership. -/
def memberOK (st : StoreState) (pid : String) : Prop :=
  ∃ sid, dlookup st.portfolio_to_setup pid = some sid
    ∧ (dlookup st.setups sid).isSome = true
    ∧ pid ∈ (dlookup st.setup_portfolios sid).getD []

/-- Every owner-map entry points at an existing setup whose membership
contains the portfolio. -/
def p2sInv (st : StoreState) : Prop :=
  ∀ q s, dlookup st.portfolio_to_setup q = some s →
    (dlookup st.setups s).isSome = true ∧ q ∈ (dlookup st.setup_portfolios s).getD []

theorem syncStep_p2s (sid : String) (start : PyDateTime) (st : StoreState) (pid : String) :
    (syncStep sid start st pid).portfolio_to_setup
      = dinsert st.portfolio_to_setup pid sid := by
  unfold syncStep
  dsimp only
  split
  · rfl
  · split
    · rfl
    · rfl

theorem syncAssigned_p2s_not_mem (sid : String) (start : PyDateTime) :
    ∀ (assigned : List String) (st : StoreState) (q : String), q ∉ assigned →
      dlookup (syncAssigned sid start st assigned).portfolio_to_setup q
        = dlookup st.portfolio_to_setup q := by
  intro assigned
  induction assigned with
  | nil => intro st q _; rfl
  | cons p rest ih =>
      intro st q hq
      rw [List.mem_cons] at hq
      push_neg at hq
      rw [syncAssigned, List.foldl_cons]
      have h2 := ih (syncStep sid start st p) q hq.2
      rw [syncAssigned] at h2
      rw [h2, syncStep_p2s, dlookup_dinsert_ne _ _ _ _ (Ne.symm hq.1)]

theorem syncAssigned_p2s_mem (sid : String) (start : PyDateTime) :
    ∀ (assigned : List String) (st : StoreState) (q : String), q ∈ assigned →
      dlookup (syncAssigned sid start st assigned).portfolio_to_setup q = some sid := by
  intro assigned
  induction assigned with
  | nil => intro st q hq; exact absurd hq (List.not_mem_nil q)
  | cons p rest ih =>
      intro st q hq
      rw [syncAssigned, List.foldl_cons]
      by_cases hqr : q ∈ rest
      · have h2 := ih (syncStep sid start st p) q hqr
        rw [syncAssigned] at h2
        exact h2
      · have hqp : q = p := by
          rcases List.mem_cons.1 hq with h | h
          · exact h
          · exact absurd h hqr
        subst hqp
        have h2 := syncAssigned_p2s_not_mem sid start rest (syncStep sid start st q) q hqr
        rw [syncAssigned] at h2
        rw [h2, syncStep_p2s, dlookup_dinsert_self]

theorem enforceStep_p2s_mem (st : StoreState) (sid pid : String)
    (hsid : (dlookup st.setups sid).isSome = true) (h : pid ∈ prunedMembership st sid) :
    dlookup (enforceStep st sid).portfolio_to_setup pid = some sid := by
  unfold enforceStep
  dsimp only
  split
  next hnone =>
    rw [show dlookup st.setups sid = none from hnone] at hsid
    exact absurd hsid (by simp)
  next setup hsu =>
    exact syncAssigned_p2s_mem _ _ _ _ _ h

theorem enforceStep_p2s_not_mem (st : StoreState) (sid pid : String)
    (h : pid ∉ prunedMembership st sid) :
    dlookup (enforceStep st sid).portfolio_to_setup pid
      = dlookup st.portfolio_to_setup pid := by
  unfold enforceStep
  dsimp only
  split
  · rfl
  next setup hsu =>
    exact syncAssigned_p2s_not_mem _ _ _ _ _ h

theorem enforceStep_memberOK (st : StoreState) (sid pid : String)
    (hsid : (dlookup st.setups sid).isSome = true)
    (hp : (dlookup st.portfolios pid).isSome = true)
    (h : memberOK st pid) : memberOK (enforceStep st sid) pid := by
  obtain ⟨s, h1, h2, h3⟩ := h
  by_cases hpm : pid ∈ prunedMembership st sid
  · refine ⟨sid, enforceStep_p2s_mem st sid pid hsid hpm, ?_, ?_⟩
    · rw [isSome_eq_of_dkeys_eq _ _ (enforceStep_setups st sid).1 sid]
      exact hsid
    · rw [enforceStep_sp_self]
      exact hpm
  · by_cases hss : s = sid
    · subst hss
      exact absurd ((mem_pySorted _ _).2 (List.mem_filter.2 ⟨h3, hp⟩)) hpm
    · refine ⟨s, ?_, ?_, ?_⟩
      · rw [enforceStep_p2s_not_mem st sid pid hpm]
        exact h1
      · rw [isSome_eq_of_dkeys_eq _ _ (enforceStep_setups st sid).1 s]
        exact h2
      · rw [enforceStep_sp_other st sid s hss]
        exact h3

theorem foldl_enforceStep_memberOK :
    ∀ (sids : List String) (st : StoreState),
      (∀ s ∈ sids, (dlookup st.setups s).isSome = true) →
      ∀ pid, (dlookup st.portfolios pid).isSome = true → memberOK st pid →
        memberOK (sids.foldl enforceStep st) pid := by
  intro sids
  induction sids with
  | nil => intro st _ pid _ h; exact h
  | cons s0 rest ih =>
      intro st hsids pid hp h
      rw [List.foldl_cons]
      refine ih (enforceStep st s0) ?_ pid ?_ ?_
      · intro s hs
        rw [isSome_eq_of_dkeys_eq _ _ (enforceStep_setups st s0).1 s]
        exact hsids s (List.mem_cons_of_mem s0 hs)
      · rw [isSome_eq_of_dkeys_eq _ _ (enforceStep_portfolios st s0).1 pid]
        exact hp
      · exact enforceStep_memberOK st s0 pid (hsids s0 (List.mem_cons_self s0 rest)) hp h

theorem enforce_memberOK (st : StoreState) (pid : String)
    (hp : (dlookup st.portfolios pid).isSome = true) (h : memberOK st pid) :
    memberOK (enforceSetupConstraints st) pid := by
  unfold enforceSetupConstraints
  split
  · exact h
  · refine foldl_enforceStep_memberOK (dkeys st.setups) st ?_ pid hp h
    intro s hs
    exact (mem_dkeys_iff_isSome _ _).1 hs

theorem assignOrphan_fields (st : StoreState) (first pid : String) :
    (assignOrphan st first pid).portfolios = st.portfolios
    ∧ (assignOrphan st first pid).setups = st.setups
    ∧ (assignOrphan st first pid).setup_portfolios
        = dinsert st.setup_portfolios first
            ((dlookup st.setup_portfolios first).getD [] ++ [pid])
    ∧ (assignOrphan st first pid).portfolio_to_setup
        = dinsert st.portfolio_to_setup pid first :=
  ⟨rfl, rfl, rfl, rfl⟩

theorem assignOrphan_memberOK (st : StoreState) (first pid : String)
    (hf : (dlookup st.setups first).isSome = true) :
    memberOK (assignOrphan st first pid) pid := by
  refine ⟨first, ?_, hf, ?_⟩
  · rw [(assignOrphan_fields st first pid).2.2.2]
    exact dlookup_dinsert_self _ _ _
  · rw [(assignOrphan_fields st first pid).2.2.1, dlookup_dinsert_self]
    exact List.mem_append_right _ (List.mem_singleton.2 rfl)

theorem assignOrphan_memberOK_mono (st : StoreState) (first p q : String)
    (hf : (dlookup st.setups first).isSome = true) (h : memberOK st q) :
    memberOK (assignOrphan st first p) q := by
  by_cases hpq : p = q
  · subst hpq
    exact assignOrphan_memberOK st first p hf
  · obtain ⟨s, h1, h2, h3⟩ := h
    refine ⟨s, ?_, h2, ?_⟩
    · rw [(assignOrphan_fields st first p).2.2.2, dlookup_dinsert_ne _ _ _ _ hpq]
      exact h1
    · rw [(assignOrphan_fields st first p).2.2.1]
      by_cases hfs : first = s
      · subst hfs
        rw [dlookup_dinsert_self]
        exact List.mem_append_left _ h3
      · rw [dlookup_dinsert_ne _ _ _ _ hfs]
        exact h3

theorem assignOrphan_p2sInv (st : StoreState) (first pid : String)
    (hf : (dlookup st.setups first).isSome = true) (h : p2sInv st) :
    p2sInv (assignOrphan st first pid) := by
  intro q s hqs
  rw [(assignOrphan_fields st first pid).2.2.2] at hqs
  by_cases hpq : pid = q
  · subst hpq
    rw [dlookup_dinsert_self] at hqs
    obtain rfl := Option.some.inj hqs
    refine ⟨hf, ?_⟩
    rw [(assignOrphan_fields st first pid).2.2.1, dlookup_dinsert_self]
    exact List.mem_append_right _ (List.mem_singleton.2 rfl)
  · rw [dlookup_dinsert_ne _ _ _ _ hpq] at hqs
    obtain ⟨h1, h2⟩ := h q s hqs
    refine ⟨h1, ?_⟩
    rw [(assignOrphan_fields st first pid).2.2.1]
    by_cases hfs : first = s
    · subst hfs
      rw [dlookup_dinsert_self]
      exact List.mem_append_left _ h2
    · rw [dlookup_dinsert_ne _ _ _ _ hfs]
      exact h2

theorem orphanStep_memberOK_self (first : String) (st : StoreState) (pid : String)
    (hf : (dlookup st.setups first).isSome = true) (hInv : p2sInv st) :
    memberOK (orphanStep first st pid) pid := by
  unfold orphanStep
  split
  next sid heq =>
    split
    · exact ⟨sid, heq, (hInv pid sid heq).1, (hInv pid sid heq).2⟩
    · exact assignOrphan_memberOK st first pid hf
  · exact assignOrphan_memberOK st first pid hf

theorem orphanStep_memberOK_mono (first : String) (st : StoreState) (p q : String)
    (hf : (dlookup st.setups first).isSome = true) (h : memberOK st q) :
    memberOK (orphanStep first st p) q := by
  unfold orphanStep
  split
  · split
    · exact h
    · exact assignOrphan_memberOK_mono st first p q hf h
  · exact assignOrphan_memberOK_mono st first p q hf h

theorem orphanStep_p2sInv (first : String) (st : StoreState) (p : String)
    (hf : (dlookup st.setups first).isSome = true) (h : p2sInv st) :
    p2sInv (orphanStep first st p) := by
  unfold orphanStep
  split
  · split
    · exact h
    · exact assignOrphan_p2sInv st first p hf h
  · exact assignOrphan_p2sInv st first p hf h

theorem orphanFold_memberOK_mono (first : String) :
    ∀ (pids : List String) (st : StoreState) (q : String),
      (dlookup st.setups first).isSome = true → memberOK st q →
      memberOK (pids.foldl (orphanStep first) st) q := by
  intro pids
  induction pids with
  | nil => intro st q _ h; exact h
  | cons p rest ih =>
      intro st q hf h
      rw [List.foldl_cons]
      refine ih (orphanStep first st p) q ?_ (orphanStep_memberOK_mono first st p q hf h)
      rw [orphanStep_setups]
      exact hf

theorem orphanFold_memberOK (first : String) :
    ∀ (pids : List String) (st : StoreState),
      (dlookup st.setups first).isSome = true → p2sInv st →
      ∀ pid ∈ pids, memberOK (pids.foldl (orphanStep first) st) pid := by
  intro pids
  induction pids with
  | nil => intro st _ _ pid hpid; exact absurd hpid (List.not_mem_nil pid)
  | cons p rest ih =>
      intro st hf hInv pid hpid
      rw [List.foldl_cons]
      have hf1 : (dlookup (orphanStep first st p).setups first).isSome = true := by
        rw [orphanStep_setups]
        exact hf
      rcases List.mem_cons.1 hpid with hEq | hmem
      · subst hEq
        exact orphanFold_memberOK_mono first rest (orphanStep first st pid) pid hf1
          (orphanStep_memberOK_self first st pid hf hInv)
      · exact ih (orphanStep first st p) hf1 (orphanStep_p2sInv first st p hf hInv) pid hmem

theorem orphanStep_portfolios (first : String) (st : StoreState) (pid : String) :
    (orphanStep first st pid).portfolios = st.portfolios := by
  unfold orphanStep
  split
  · split
    · rfl
    · rfl
  · rfl

theorem orphanFold_portfolios :
    ∀ (pids : List String) (st : StoreState) (first : String),
      (pids.foldl (orphanStep first) st).portfolios = st.portfolios := by
  intro pids
  induction pids with
  | nil => intro st first; rfl
  | cons p rest ih =>
      intro st first
      rw [List.foldl_cons, ih (orphanStep first st p) first, orphanStep_portfolios]

theorem orphanPass_portfolios (st0 : StoreState) :
    (orphanPass st0).portfolios = st0.portfolios := by
  unfold orphanPass
  split
  · rfl
  · exact orphanFold_portfolios _ _ _

theorem orphanPass_memberOK (st0 : StoreState) (hne : st0.setups ≠ [])
    (hInv : p2sInv st0) :
    ∀ pid ∈ dkeys st0.portfolios, memberOK (orphanPass st0) pid := by
  intro pid hpid
  unfold orphanPass
  split
  next hk => exact absurd ((dkeys_eq_nil_iff _).1 hk) hne
  next first rest hk =>
    refine orphanFold_memberOK first (dkeys st0.portfolios) st0 ?_ hInv pid hpid
    refine (mem_dkeys_iff_isSome _ _).1 ?_
    rw [hk]
    exact List.mem_cons_self first rest

/-- The state reached by every load satisfies memberOK for each of its
portfolios, provided the pre-orphan state has a setup and a sound owner
map. -/
theorem loadTail_memberOK (st0 : StoreState) (hne : st0.setups ≠ []) (hInv : p2sInv st0)
    (pid : String)
    (hpid : pid ∈ dkeys (enforceSetupConstraints (orphanPass st0)).portfolios) :
    memberOK (enforceSetupConstraints (orphanPass st0)) pid := by
  have hkeys : dkeys (enforceSetupConstraints (orphanPass st0)).portfolios
      = dkeys st0.portfolios := by
    rw [(enforce_portfolios (orphanPass st0)).1, orphanPass_portfolios]
  rw [hkeys] at hpid
  refine enforce_memberOK (orphanPass st0) pid ?_ (orphanPass_memberOK st0 hne hInv pid hpid)
  refine (mem_dkeys_iff_isSome _ _).1 ?_
  rw [orphanPass_portfolios]
  exact hpid

theorem loadMappingStep_inv (setups : Dict String PortfolioSetup)
    (portfolios : Dict String Portfolio)
    (acc : Dict String (List String) × Dict String String) (r : MappingRow)
    (h : ∀ q s, dlookup acc.2 q = some s →
        (dlookup setups s).isSome = true ∧ q ∈ (dlookup acc.1 s).getD []) :
    ∀ q s, dlookup (loadMappingStep setups portfolios acc r).2 q = some s →
      (dlookup setups s).isSome = true
      ∧ q ∈ (dlookup (loadMappingStep setups portfolios acc r).1 s).getD [] := by
  intro q s hqs
  unfold loadMappingStep at hqs ⊢
  by_cases hc : ((dlookup setups r.setup_id).isSome && (dlookup portfolios r.portfolio_id).isSome) = true
  · rw [if_pos hc] at hqs ⊢
    dsimp only at hqs ⊢
    by_cases hq : r.portfolio_id = q
    · subst hq
      rw [dlookup_dinsert_self] at hqs
      obtain rfl := Option.some.inj hqs
      refine ⟨((Bool.and_eq_true _ _ ▸ hc : _ ∧ _)).1, ?_⟩
      rw [dlookup_dinsert_self]
      exact List.mem_append_right _ (List.mem_singleton.2 rfl)
    · rw [dlookup_dinsert_ne _ _ _ _ hq] at hqs
      obtain ⟨h1, h2⟩ := h q s hqs
      refine ⟨h1, ?_⟩
      by_cases hs2 : r.setup_id = s
      · subst hs2
        rw [dlookup_dinsert_self]
        exact List.mem_append_left _ h2
      · rw [dlookup_dinsert_ne _ _ _ _ hs2]
        exact h2
  · rw [if_neg hc] at hqs ⊢
    exact h q s hqs

theorem loadMappingFold_inv (setups : Dict String PortfolioSetup)
    (portfolios : Dict String Portfolio) :
    ∀ (rows : List MappingRow) (acc : Dict String (List String) × Dict String String),
      (∀ q s, dlookup acc.2 q = some s →
          (dlookup setups s).isSome = true ∧ q ∈ (dlookup acc.1 s).getD []) →
      ∀ q s, dlookup (rows.foldl (loadMappingStep setups portfolios) acc).2 q = some s →
        (dlookup setups s).isSome = true
        ∧ q ∈ (dlookup (rows.foldl (loadMappingStep setups portfolios) acc).1 s).getD [] := by
  intro rows
  induction rows with
  | nil => intro acc h; exact h
  | cons r rest ih =>
      intro acc h
      rw [List.foldl_cons]
      exact ih (loadMappingStep setups portfolios acc r)
        (loadMappingStep_inv setups portfolios acc r h)

theorem base_p2sInv (c : Prop) [Decidable c]
    (x y : Dict String PortfolioSetup × Dict String (List String) × Dict String String)
    (hx : ∀ q s, dlookup x.2.2 q = some s →
        (dlookup x.1 s).isSome = true ∧ q ∈ (dlookup x.2.1 s).getD [])
    (hy : ∀ q s, dlookup y.2.2 q = some s →
        (dlookup y.1 s).isSome = true ∧ q ∈ (dlookup y.2.1 s).getD []) :
    ∀ q s, dlookup (if c then x else y).2.2 q = some s →
      (dlookup (if c then x else y).1 s).isSome = true
      ∧ q ∈ (dlookup (if c then x else y).2.1 s).getD [] := by
  split
  · exact hx
  · exact hy

theorem pairFB_p2sInv
    (B : Dict String PortfolioSetup × Dict String (List String) × Dict String String)
    (fb : PortfolioSetup) (fId : String) (P : Dict String Portfolio)
    (S : Dict String (Dict String ℚ))
    (hB : ∀ q s, dlookup B.2.2 q = some s →
        (dlookup B.1 s).isSome = true ∧ q ∈ (dlookup B.2.1 s).getD []) :
    p2sInv
      { portfolios := P, portfolio_symbols := S,
        setups := (if B.1 = []
            then (dinsert B.1 fId fb, dinsert B.2.1 fId ([] : List String))
            else (B.1, B.2.1)).1,
        setup_portfolios := (if B.1 = []
            then (dinsert B.1 fId fb, dinsert B.2.1 fId ([] : List String))
            else (B.1, B.2.1)).2,
        portfolio_to_setup := B.2.2 } := by
  intro q s hqs
  obtain ⟨h1, h2⟩ := hB q s hqs
  dsimp only
  split
  next hc =>
    rw [hc] at h1
    exact absurd h1 (by simp)
  next hc =>
    exact ⟨h1, h2⟩

theorem dinsert_ne_nil (m : Dict String PortfolioSetup) (k : String) (v : PortfolioSetup) :
    dinsert m k v ≠ [] := by
  match m with
  | [] => exact fun h => List.noConfusion h
  | (k0, v0) :: rest =>
      rw [dinsert]
      split
      · exact fun h => List.noConfusion h
      · exact fun h => List.noConfusion h

theorem ite_fst_ne_nil {V β : Type} (c : Prop) [Decidable c] (x y : Dict String V × β)
    (hx : c → x.1 ≠ []) (hy : ¬c → y.1 ≠ []) : (if c then x else y).1 ≠ [] := by
  split
  next h => exact hx h
  next h => exact hy h

/-- Claim C3 (amended): the constraint-enforcement pass itself reassigns
no orphan (see the counterexample); it is the inline loop at the end of
_load that does, so after every load every portfolio's setup reference
points at an existing setup whose membership contains the portfolio. -/
theorem claim_C3_orphan_reassignment (rows : PersistedRows) (now : Int)
    (defaultId fallbackId : String) (pid : String)
    (hpid : pid ∈ dkeys (loadStore rows now defaultId fallbackId).portfolios) :
    memberOK (loadStore rows now defaultId fallbackId) pid := by
  unfold loadStore at hpid ⊢
  dsimp only at hpid ⊢
  refine loadTail_memberOK _ ?_ ?_ pid hpid
  · dsimp only
    exact ite_fst_ne_nil _ _ _ (fun _ => dinsert_ne_nil _ _ _) (fun h => h)
  · refine pairFB_p2sInv _ _ _ _ _ ?_
    refine base_p2sInv _ _ _ ?_ ?_
    · exact loadMappingFold_inv _ _ _ _ (fun q s hqs => absurd hqs (by simp))
    · exact fun q s hqs => absurd hqs (by simp)

/-- A store with one orphan portfolio p (no owner-map entry) and one
setup s: the enforcement pass does not touch it. -/
def c3state : StoreState :=
  { portfolios :=
      [("p", ⟨"p", "P", none, [], 0, [], ⟨0, some 0⟩, ⟨0, some 0⟩, ⟨0, some 0⟩⟩)],
    portfolio_symbols := [("p", [])],
    setups :=
      [("s", ⟨"s", "S", none, ⟨0, some 0⟩, ⟨0, some 0⟩, ⟨0, some 0⟩, ⟨0, some 0⟩, []⟩)],
    setup_portfolios := [("s", [])],
    portfolio_to_setup := [] }

/-- Counterexample to claim C3 as stated: the enforcement pass leaves
the orphan portfolio p unassigned - no owner-map entry is created and
the only setup's membership stays empty - so the pass itself performs
no reassignment. -/
theorem claim_C3_counterexample :
    dlookup (enforceSetupConstraints c3state).portfolio_to_setup "p" = none
    ∧ "p" ∈ dkeys (enforceSetupConstraints c3state).portfolios
    ∧ (dlookup (enforceSetupConstraints c3state).setup_portfolios "s").getD [] = [] := by
  refine ⟨?_, ?_, ?_⟩
  · with_unfolding_all decide
  · with_unfolding_all decide
  · with_unfolding_all decide

def c3rows : PersistedRows :=
  ⟨[⟨"p", some "P", none, some 0, some ⟨0, some 0⟩, some ⟨0, some 0⟩, some ⟨0, some 0⟩⟩],
   [],
   [⟨"s", some "S", none, some ⟨0, some 0⟩, some ⟨0, some 0⟩, some ⟨0, some 0⟩, some ⟨0, some 0⟩⟩],
   []⟩

theorem claim_C3_witness :
    "p" ∈ dkeys (loadStore c3rows 5 "d" "f").portfolios
    ∧ memberOK (loadStore c3rows 5 "d" "f") "p" := by
  constructor
  · with_unfolding_all decide
  · exact claim_C3_orphan_reassignment c3rows 5 "d" "f" "p" (by with_unfolding_all decide)

/-! ### Claim C2: save/load round trip -/

theorem charListLt_irrefl : ∀ l : List Char, charListLt l l = false
  | [] => rfl
  | a :: as => by
      rw [charListLt, if_neg (show ¬ a.val < a.val from Nat.lt_irrefl _),
        if_neg (show ¬ a.val < a.val from Nat.lt_irrefl _)]
      exact charListLt_irrefl as

theorem charListLt_trans :
    ∀ (a b c : List Char), charListLt a b = true → charListLt b c = true →
      charListLt a c = true := by
  intro a
  induction a with
  | nil =>
      intro b c h1 h2
      cases b with
      | nil => exact absurd h1 (by simp [charListLt])
      | cons y bs =>
          cases c with
          | nil => exact absurd h2 (by simp [charListLt])
          | cons z cs => rfl
  | cons x as ih =>
      intro b c h1 h2
      cases b with
      | nil => exact absurd h1 (by simp [charListLt])
      | cons y bs =>
          cases c with
          | nil => exact absurd h2 (by simp [charListLt])
          | cons z cs =>
              rw [charListLt] at h1 h2 ⊢
              by_cases hxy : x.val < y.val
              · rw [if_pos hxy] at h1
                by_cases hyz : y.val < z.val
                · rw [if_pos (show x.val < z.val from Nat.lt_trans hxy hyz)]
                · rw [if_neg hyz] at h2
                  by_cases hzy : z.val < y.val
                  · rw [if_pos hzy] at h2
                    exact absurd h2 (by simp)
                  · have hyz' : y.val = z.val :=
                      UInt32.ext (Nat.le_antisymm (Nat.not_lt.1 hzy) (Nat.not_lt.1 hyz))
                    rw [if_pos (hyz' ▸ hxy : x.val < z.val)]
              · rw [if_neg hxy] at h1
                by_cases hyx : y.val < x.val
                · rw [if_pos hyx] at h1
                  exact absurd h1 (by simp)
                · rw [if_neg hyx] at h1
                  have hxy' : x.val = y.val :=
                    UInt32.ext (Nat.le_antisymm (Nat.not_lt.1 hyx) (Nat.not_lt.1 hxy))
                  by_cases hyz : y.val < z.val
                  · rw [if_pos (hxy' ▸ hyz : x.val < z.val)]
                  · rw [if_neg hyz] at h2
                    by_cases hzy : z.val < y.val
                    · rw [if_pos hzy] at h2
                      exact absurd h2 (by simp)
                    · rw [if_neg hzy] at h2
                      rw [if_neg (show ¬ x.val < z.val by rw [hxy']; exact hyz)]
                      rw [if_neg (show ¬ z.val < x.val by rw [hxy']; exact hzy)]
                      exact ih bs cs h1 h2

theorem charListLt_connex :
    ∀ (a b : List Char), charListLt a b = false → charListLt b a = false → a = b := by
  intro a
  induction a with
  | nil =>
      intro b h1 _
      cases b with
      | nil => rfl
      | cons y bs => exact absurd h1 (by simp [charListLt])
  | cons x as ih =>
      intro b h1 h2
      cases b with
      | nil => exact absurd h2 (by simp [charListLt])
      | cons y bs =>
          rw [charListLt] at h1 h2
          by_cases hxy : x.val < y.val
          · rw [if_pos hxy] at h1
            exact absurd h1 (by simp)
          · by_cases hyx : y.val < x.val
            · rw [if_pos hyx] at h2
              exact absurd h2 (by simp)
            · rw [if_neg hxy, if_neg hyx] at h1
              rw [if_neg hyx, if_neg hxy] at h2
              have hc : x = y :=
                Char.ext (UInt32.ext (Nat.le_antisymm (Nat.not_lt.1 hyx) (Nat.not_lt.1 hxy)))
              rw [hc, ih bs h1 h2]

theorem pyStrLe_trans (a b c : String) (h1 : pyStrLe a b = true) (h2 : pyStrLe b c = true) :
    pyStrLe a c = true := by
  unfold pyStrLe at h1 h2 ⊢
  rw [Bool.not_eq_true'] at h1 h2 ⊢
  by_contra hc
  rw [Bool.not_eq_false] at hc
  by_cases hab : charListLt a.data b.data = true
  · have h3 := charListLt_trans _ _ _ hc hab
    exact Bool.false_ne_true (h2 ▸ h3)
  · have hab0 : charListLt a.data b.data = false := by
      revert hab
      cases charListLt a.data b.data <;> simp
    have hd : a.data = b.data := charListLt_connex _ _ hab0 h1
    rw [← hd] at h2
    exact Bool.false_ne_true (h2 ▸ hc)

theorem pyStrLe_total (a b : String) : pyStrLe a b = true ∨ pyStrLe b a = true := by
  unfold pyStrLe
  rw [Bool.not_eq_true', Bool.not_eq_true']
  by_cases h : charListLt b.data a.data = true
  · right
    by_contra hc
    rw [Bool.not_eq_false] at hc
    have h3 := charListLt_trans _ _ _ h hc
    rw [charListLt_irrefl] at h3
    exact Bool.false_ne_true h3
  · left
    revert h
    cases charListLt b.data a.data <;> simp

instance : IsTrans String (fun a b => pyStrLe a b = true) := ⟨pyStrLe_trans⟩

instance : IsTotal String (fun a b => pyStrLe a b = true) := ⟨pyStrLe_total⟩

theorem pySorted_idem (l : List String) : pySorted (pySorted l) = pySorted l :=
  List.Sorted.insertionSort_eq (List.sorted_insertionSort _ l)

theorem dinsert_dinsert_self (m : Dict String (List String)) (k : String)
    (v w : List String) : dinsert (dinsert m k v) k w = dinsert m k w := by
  induction m with
  | nil => simp [dinsert]
  | cons hd tl ih =>
      obtain ⟨k0, v0⟩ := hd
      by_cases h : k0 = k
      · subst h
        simp [dinsert]
      · simp [dinsert, h, ih]

theorem dlookup_of_mem_nodup {V2 : Type} (m : Dict String V2)
    (hnd : (dkeys m).Nodup) (kv : String × V2) (h : kv ∈ m) :
    dlookup m kv.1 = some kv.2 := by
  induction m with
  | nil => exact absurd h (List.not_mem_nil kv)
  | cons hd tl ih =>
      obtain ⟨k0, v0⟩ := hd
      rcases List.mem_cons.1 h with hEq | hm
      · subst hEq
        rw [dlookup_cons, if_pos rfl]
      · have hk : k0 ≠ kv.1 := by
          intro hc
          subst hc
          exact (List.nodup_cons.1 (by simpa [dkeys] using hnd)).1
            (List.mem_map_of_mem Prod.fst hm)
        rw [dlookup_cons, if_neg hk]
        exact ih (List.nodup_cons.1 (by simpa [dkeys] using hnd)).2 hm

theorem dinsert_cons_ne {V2 : Type} (k0 : String) (v0 : V2) (m : Dict String V2)
    (key : String) (v : V2) (h : k0 ≠ key) :
    dinsert ((k0, v0) :: m) key v = (k0, v0) :: dinsert m key v := by
  simp [dinsert, h]

theorem loadSymbolMap_append (r1 r2 : List SymbolRow) :
    loadSymbolMap (r1 ++ r2) = r2.foldl loadSymbolStep (loadSymbolMap r1) := by
  unfold loadSymbolMap
  exact List.foldl_append _ _ _ _

theorem loadSymbolStep_cons_ne (r : SymbolRow) (k0 : String) (v0 : Dict String ℚ)
    (acc : Dict String (Dict String ℚ)) (h : r.portfolio_id ≠ k0) :
    loadSymbolStep ((k0, v0) :: acc) r = (k0, v0) :: loadSymbolStep acc r := by
  unfold loadSymbolStep
  dsimp only
  rw [dlookup_cons, if_neg (Ne.symm h), dinsert_cons_ne _ _ _ _ _ (Ne.symm h)]

theorem loadSymbolFold_cons_ne :
    ∀ (rows : List SymbolRow) (k0 : String) (v0 : Dict String ℚ)
      (acc : Dict String (Dict String ℚ)),
      (∀ r ∈ rows, r.portfolio_id ≠ k0) →
      rows.foldl loadSymbolStep ((k0, v0) :: acc)
        = (k0, v0) :: rows.foldl loadSymbolStep acc := by
  intro rows
  induction rows with
  | nil => intro k0 v0 acc _; rfl
  | cons r rest ih =>
      intro k0 v0 acc h
      rw [List.foldl_cons, loadSymbolStep_cons_ne r k0 v0 acc (h r (List.mem_cons_self r rest)),
        List.foldl_cons]
      exact ih k0 v0 (loadSymbolStep acc r) (fun r2 h2 => h r2 (List.mem_cons_of_mem r h2))

theorem symGroupAux (pid : String) :
    ∀ (w : Dict String ℚ) (cur : Dict String ℚ),
      (dkeys (cur ++ w)).Nodup →
      (∀ s ∈ dkeys w, pyUpper s = s) →
      (w.map (fun sw => ({ portfolio_id := pid, symbol := sw.1, weight := some sw.2 } :
          SymbolRow))).foldl loadSymbolStep [(pid, cur)]
        = [(pid, cur ++ w)] := by
  intro w
  induction w with
  | nil => intro cur _ _; simp
  | cons sw rest ih =>
      intro cur hnd hup
      obtain ⟨s0, q0⟩ := sw
      have hkeys : dkeys (cur ++ (s0, q0) :: rest) = dkeys cur ++ s0 :: dkeys rest := by
        simp [dkeys]
      have hnd' : (dkeys cur ++ s0 :: dkeys rest).Nodup := hkeys ▸ hnd
      have hs0cur : s0 ∉ dkeys cur := fun hc =>
        (List.disjoint_of_nodup_append hnd') hc (by simp)
      have hs0 : pyUpper s0 = s0 := hup s0 (by simp [dkeys])
      rw [List.map_cons, List.foldl_cons]
      have hstep : loadSymbolStep [(pid, cur)]
          { portfolio_id := pid, symbol := s0, weight := some q0 }
          = [(pid, cur ++ [(s0, q0)])] := by
        unfold loadSymbolStep
        dsimp only
        rw [dlookup_cons, if_pos rfl]
        dsimp only [Option.getD]
        rw [hs0, dinsert_of_not_mem _ _ _ hs0cur]
        simp [dinsert]
      rw [hstep]
      rw [ih (cur ++ [(s0, q0)])
        (by rw [List.append_assoc, List.singleton_append]; exact hnd)
        (fun s hs => hup s (by rw [dkeys_cons]; exact List.mem_cons_of_mem _ hs))]
      rw [List.append_assoc, List.singleton_append]

theorem loadSymbolMap_roundtrip :
    ∀ (P : Dict String (Dict String ℚ)),
      (dkeys P).Nodup →
      (∀ kv ∈ P, (dkeys kv.2).Nodup ∧ ∀ s ∈ dkeys kv.2, pyUpper s = s) →
      loadSymbolMap (P.flatMap (fun kv => kv.2.map (fun sw =>
          ({ portfolio_id := kv.1, symbol := sw.1, weight := some sw.2 } : SymbolRow))))
        = P.filter (fun kv => !kv.2.isEmpty) := by
  intro P
  induction P with
  | nil => intro _ _; rfl
  | cons kv rest ih =>
      intro hnd hin
      obtain ⟨pid0, w0⟩ := kv
      have hnd1 := List.nodup_cons.1 (show (pid0 :: dkeys rest).Nodup by simpa [dkeys] using hnd)
      have hin' : ∀ kv ∈ rest, (dkeys kv.2).Nodup ∧ ∀ s ∈ dkeys kv.2, pyUpper s = s :=
        fun kv2 hkv2 => hin kv2 (List.mem_cons_of_mem _ hkv2)
      have hfresh : ∀ r ∈ rest.flatMap (fun kv => kv.2.map (fun sw =>
          ({ portfolio_id := kv.1, symbol := sw.1, weight := some sw.2 } : SymbolRow))),
          r.portfolio_id ≠ pid0 := by
        intro r hr
        obtain ⟨kv2, hkv2, hr2⟩ := List.mem_flatMap.1 hr
        obtain ⟨sw, _, rfl⟩ := List.mem_map.1 hr2
        intro hc
        exact hnd1.1 (hc ▸ List.mem_map_of_mem Prod.fst hkv2)
      rw [List.flatMap_cons, loadSymbolMap_append]
      cases w0 with
      | nil =>
          rw [List.map_nil]
          rw [show ((pid0, ([] : Dict String ℚ)) :: rest).filter (fun kv => !kv.2.isEmpty)
            = rest.filter (fun kv => !kv.2.isEmpty) from by simp]
          exact ih hnd1.2 hin'
      | cons sw w0' =>
          obtain ⟨s0, q0⟩ := sw
          have hin0 := hin (pid0, (s0, q0) :: w0') (List.mem_cons_self _ _)
          have hfirst : loadSymbolMap (((s0, q0) :: w0').map (fun sw =>
              ({ portfolio_id := pid0, symbol := sw.1, weight := some sw.2 } : SymbolRow)))
              = [(pid0, (s0, q0) :: w0')] := by
            rw [List.map_cons]
            unfold loadSymbolMap
            rw [List.foldl_cons]
            have hstep0 : loadSymbolStep []
                { portfolio_id := pid0, symbol := s0, weight := some q0 }
                = [(pid0, [(s0, q0)])] := by
              unfold loadSymbolStep
              dsimp only
              rw [hin0.2 s0 (by simp [dkeys])]
              rfl
            rw [hstep0]
            have hrest := symGroupAux pid0 w0' [(s0, q0)]
              (by rw [List.singleton_append]; exact hin0.1)
              (fun s hs => hin0.2 s (by rw [dkeys_cons]; exact List.mem_cons_of_mem _ hs))
            rw [List.singleton_append] at hrest
            exact hrest
          rw [hfirst, loadSymbolFold_cons_ne _ _ _ _ hfresh]
          rw [show ((pid0, (s0, q0) :: w0') :: rest).filter (fun kv => !kv.2.isEmpty)
            = (pid0, (s0, q0) :: w0') :: rest.filter (fun kv => !kv.2.isEmpty) from by simp]
          exact congrArg (List.cons (pid0, (s0, q0) :: w0')) (ih hnd1.2 hin')

theorem dlookup_filter_isEmpty :
    ∀ (P : Dict String (Dict String ℚ)), (dkeys P).Nodup →
      ∀ pid, (dlookup (P.filter (fun kv => !kv.2.isEmpty)) pid).getD []
        = (dlookup P pid).getD [] := by
  intro P
  induction P with
  | nil => intro _ pid; rfl
  | cons kv rest ih =>
      intro hnd pid
      obtain ⟨k0, v0⟩ := kv
      have hnd1 := List.nodup_cons.1 (show (k0 :: dkeys rest).Nodup by simpa [dkeys] using hnd)
      by_cases hv : v0.isEmpty = true
      · have hv0 : v0 = [] := List.isEmpty_iff.1 hv
        subst hv0
        rw [show ((k0, ([] : Dict String ℚ)) :: rest).filter (fun kv => !kv.2.isEmpty)
          = rest.filter (fun kv => !kv.2.isEmpty) from by simp]
        by_cases hk : k0 = pid
        · subst hk
          rw [dlookup_cons, if_pos rfl]
          have hnone : dlookup (rest.filter (fun kv => !kv.2.isEmpty)) k0 = none := by
            refine dlookup_eq_none_of_not_mem _ _ ?_
            intro hc
            obtain ⟨kv2, hkv2, hfst⟩ := List.mem_map.1 hc
            exact hnd1.1 (hfst ▸ List.mem_map_of_mem Prod.fst (List.mem_of_mem_filter hkv2))
          rw [hnone]
          rfl
        · rw [dlookup_cons, if_neg hk]
          exact ih hnd1.2 pid
      · rw [show ((k0, v0) :: rest).filter (fun kv => !kv.2.isEmpty)
          = (k0, v0) :: rest.filter (fun kv => !kv.2.isEmpty) from by simp [hv]]
        by_cases hk : k0 = pid
        · subst hk
          rw [dlookup_cons, if_pos rfl, dlookup_cons, if_pos rfl]
        · rw [dlookup_cons, if_neg hk, dlookup_cons, if_neg hk]
          exact ih hnd1.2 pid

theorem dlookup_some_mem {V2 : Type} :
    ∀ (m : Dict String V2) (k : String) (v : V2), dlookup m k = some v → (k, v) ∈ m := by
  intro m
  induction m with
  | nil => intro k v h; exact absurd h (by simp)
  | cons hd tl ih =>
      intro k v h
      obtain ⟨k0, v0⟩ := hd
      rw [dlookup_cons] at h
      by_cases hk : k0 = k
      · rw [if_pos hk] at h
        subst hk
        obtain rfl := Option.some.inj h
        exact List.mem_cons_self _ _
      · rw [if_neg hk] at h
        exact List.mem_cons_of_mem _ (ih k v h)

theorem loadPortfolios_eq_map (sm : Dict String (Dict String ℚ)) (now : PyDateTime)
    (rows : List PortfolioRow) (hnd : (rows.map (fun r => r.id)).Nodup) :
    loadPortfolios sm now rows
      = rows.map (fun r => (r.id, loadPortfolioEntry sm now r)) := by
  unfold loadPortfolios
  rw [foldl_dinsert_fresh (fun r => r.id) (fun r => loadPortfolioEntry sm now r) rows []
    hnd (fun x _ => List.not_mem_nil _)]
  rw [List.nil_append]

theorem loadSetupsFold_eq (now : PyDateTime) :
    ∀ (rows : List SetupRow) (acc : Dict String PortfolioSetup × Dict String (List String)),
      (rows.map (fun r => r.id)).Nodup →
      (∀ r ∈ rows, r.id ∉ dkeys acc.1) → (∀ r ∈ rows, r.id ∉ dkeys acc.2) →
      rows.foldl (loadSetupsStep now) acc
        = (acc.1 ++ rows.map (fun r => (r.id, loadSetupEntry now r)),
           acc.2 ++ rows.map (fun r => (r.id, ([] : List String)))) := by
  intro rows
  induction rows with
  | nil => intro acc _ _ _; simp
  | cons r rest ih =>
      intro acc hnd h1 h2
      rw [List.foldl_cons]
      have hstep : loadSetupsStep now acc r
          = (acc.1 ++ [(r.id, loadSetupEntry now r)], acc.2 ++ [(r.id, ([] : List String))]) := by
        unfold loadSetupsStep
        rw [dinsert_of_not_mem _ _ _ (h1 r (List.mem_cons_self r rest)),
          dinsert_of_not_mem _ _ _ (h2 r (List.mem_cons_self r rest))]
      rw [hstep]
      rw [List.map_cons] at hnd
      have hfr : ∀ x ∈ rest, x.id ≠ r.id := by
        intro x hx hc
        exact (List.nodup_cons.1 hnd).1 (hc ▸ List.mem_map_of_mem (fun r => r.id) hx)
      rw [ih (acc.1 ++ [(r.id, loadSetupEntry now r)], acc.2 ++ [(r.id, ([] : List String))])
        (List.nodup_cons.1 hnd).2
        (by
          intro x hx
          have hxa := h1 x (List.mem_cons_of_mem r hx)
          simp [dkeys] at hxa ⊢
          exact ⟨hxa, hfr x hx⟩)
        (by
          intro x hx
          have hxa := h2 x (List.mem_cons_of_mem r hx)
          simp [dkeys] at hxa ⊢
          exact ⟨hxa, hfr x hx⟩)]
      simp [List.append_assoc]

/-- The pre-orphan state _load builds when the setups row-set is
non-empty (so neither default-setup branch runs). -/
def loadBase (rows : PersistedRows) (now : Int) : StoreState :=
  let nowDT := utcNow now
  let symbolMap := loadSymbolMap rows.portfolio_symbols
  let portfolios := loadPortfolios symbolMap nowDT rows.portfolios
  let pair := rows.setups.foldl (loadSetupsStep nowDT) ([], [])
  let tri := rows.setup_portfolios.foldl (loadMappingStep pair.1 portfolios) (pair.2, [])
  { portfolios := portfolios
    portfolio_symbols := symbolMap
    setups := pair.1
    setup_portfolios := tri.1
    portfolio_to_setup := tri.2 }

theorem loadStore_eq_loadBase (rows : PersistedRows) (now : Int) (dId fId : String)
    (h1 : rows.setups ≠ [])
    (h2 : (rows.setups.foldl (loadSetupsStep (utcNow now)) ([], [])).1 ≠ []) :
    loadStore rows now dId fId = enforceSetupConstraints (orphanPass (loadBase rows now)) := by
  unfold loadStore loadBase
  dsimp only
  rw [if_pos h1]
  dsimp only
  rw [if_neg h2]

theorem orphanStep_noop (first : String) (st : StoreState) (pid : String)
    (h : ∃ sid, dlookup st.portfolio_to_setup pid = some sid
        ∧ (dlookup st.setups sid).isSome = true) :
    orphanStep first st pid = st := by
  obtain ⟨sid, h1, h2⟩ := h
  unfold orphanStep
  rw [h1]
  dsimp only
  rw [if_pos h2]

theorem orphanFold_noop (first : String) :
    ∀ (pids : List String) (st : StoreState),
      (∀ pid ∈ pids, ∃ sid, dlookup st.portfolio_to_setup pid = some sid
          ∧ (dlookup st.setups sid).isSome = true) →
      pids.foldl (orphanStep first) st = st := by
  intro pids
  induction pids with
  | nil => intro st _; rfl
  | cons p rest ih =>
      intro st h
      rw [List.foldl_cons, orphanStep_noop first st p (h p (List.mem_cons_self p rest))]
      exact ih st (fun pid hpid => h pid (List.mem_cons_of_mem p hpid))

theorem orphanPass_noop (st0 : StoreState)
    (h : ∀ pid ∈ dkeys st0.portfolios, ∃ sid,
        dlookup st0.portfolio_to_setup pid = some sid
        ∧ (dlookup st0.setups sid).isSome = true) :
    orphanPass st0 = st0 := by
  unfold orphanPass
  split
  · rfl
  · exact orphanFold_noop _ _ _ h

theorem dinsert_lookup_self {V2 : Type} :
    ∀ (m : Dict String V2) (k : String) (v : V2), dlookup m k = some v →
      dinsert m k v = m := by
  intro m
  induction m with
  | nil => intro k v h; exact absurd h (by simp)
  | cons hd tl ih =>
      intro k v h
      obtain ⟨k0, v0⟩ := hd
      rw [dlookup_cons] at h
      by_cases hk : k0 = k
      · rw [if_pos hk] at h
        obtain rfl := Option.some.inj h
        subst hk
        rw [dinsert, if_pos rfl]
      · rw [if_neg hk] at h
        rw [dinsert, if_neg hk, ih k v h]

/-- The first component of a mapping-fold step, as a standalone fold
function over the memberships dict. -/
def mapFst (S : Dict String PortfolioSetup) (P : Dict String Portfolio)
    (a1 : Dict String (List String)) (r : MappingRow) : Dict String (List String) :=
  if (dlookup S r.setup_id).isSome && (dlookup P r.portfolio_id).isSome then
    dinsert a1 r.setup_id ((dlookup a1 r.setup_id).getD [] ++ [r.portfolio_id])
  else a1

theorem loadMappingFold_fst (S : Dict String PortfolioSetup) (P : Dict String Portfolio) :
    ∀ (rows : List MappingRow) (acc : Dict String (List String) × Dict String String),
      (rows.foldl (loadMappingStep S P) acc).1 = rows.foldl (mapFst S P) acc.1 := by
  intro rows
  induction rows with
  | nil => intro acc; rfl
  | cons r rest ih =>
      intro acc
      rw [List.foldl_cons, List.foldl_cons, ih]
      have hstep : (loadMappingStep S P acc r).1 = mapFst S P acc.1 r := by
        unfold loadMappingStep mapFst
        split
        · rfl
        · rfl
      rw [hstep]

theorem mapFstFold_lookup_of_fresh (S : Dict String PortfolioSetup)
    (P : Dict String Portfolio) :
    ∀ (rows : List MappingRow) (a1 : Dict String (List String)) (sid : String),
      (∀ r ∈ rows, r.setup_id ≠ sid) →
      dlookup (rows.foldl (mapFst S P) a1) sid = dlookup a1 sid := by
  intro rows
  induction rows with
  | nil => intro a1 sid _; rfl
  | cons r rest ih =>
      intro a1 sid h
      rw [List.foldl_cons, ih _ sid (fun r2 h2 => h r2 (List.mem_cons_of_mem r h2))]
      unfold mapFst
      split
      · exact dlookup_dinsert_ne _ _ _ _ (h r (List.mem_cons_self r rest))
      · rfl

theorem mapFstGroup (S : Dict String PortfolioSetup) (P : Dict String Portfolio)
    (sid : String) :
    ∀ (pids : List String) (a1 : Dict String (List String)) (g : List String),
      dlookup a1 sid = some g →
      (∀ pid ∈ pids, ((dlookup S sid).isSome && (dlookup P pid).isSome) = true) →
      (pids.map (fun pid => ({ setup_id := sid, portfolio_id := pid } : MappingRow))).foldl
          (mapFst S P) a1
        = dinsert a1 sid (g ++ pids) := by
  intro pids
  induction pids with
  | nil =>
      intro a1 g hg _
      rw [List.map_nil, List.foldl_nil, List.append_nil, dinsert_lookup_self a1 sid g hg]
  | cons p rest ih =>
      intro a1 g hg hc
      rw [List.map_cons, List.foldl_cons]
      have hstep : mapFst S P a1 { setup_id := sid, portfolio_id := p }
          = dinsert a1 sid (g ++ [p]) := by
        unfold mapFst
        dsimp only
        rw [if_pos (hc p (List.mem_cons_self p rest)), hg]
        rfl
      rw [hstep]
      rw [ih (dinsert a1 sid (g ++ [p])) (g ++ [p]) (dlookup_dinsert_self _ _ _)
        (fun pid hpid => hc pid (List.mem_cons_of_mem p hpid))]
      rw [dinsert_dinsert_self, List.append_assoc, List.singleton_append]

theorem mapFstRegroup (S : Dict String PortfolioSetup) (P : Dict String Portfolio) :
    ∀ (SP : Dict String (List String)) (a1 : Dict String (List String)),
      (dkeys SP).Nodup →
      (∀ kv ∈ SP, ∀ pid ∈ kv.2,
        ((dlookup S kv.1).isSome && (dlookup P pid).isSome) = true) →
      (∀ s ∈ dkeys SP, (dlookup a1 s).isSome = true) →
      ∀ sid lst g, dlookup SP sid = some lst → dlookup a1 sid = some g →
        dlookup ((SP.flatMap (fun kv => kv.2.map (fun pid =>
            ({ setup_id := kv.1, portfolio_id := pid } : MappingRow)))).foldl
            (mapFst S P) a1) sid
          = some (g ++ lst) := by
  intro SP
  induction SP with
  | nil => intro a1 _ _ _ sid lst g hl _; exact absurd hl (by simp)
  | cons kv rest ih =>
      intro a1 hnd hcond hall sid lst g hl hg
      obtain ⟨k0, l0⟩ := kv
      have hnd1 := List.nodup_cons.1 (show (k0 :: dkeys rest).Nodup by simpa [dkeys] using hnd)
      obtain ⟨g0, hg0⟩ := Option.isSome_iff_exists.1 (hall k0 (by simp [dkeys]))
      rw [List.flatMap_cons, List.foldl_append]
      rw [mapFstGroup S P k0 l0 a1 g0 hg0
        (fun pid hpid => hcond (k0, l0) (List.mem_cons_self _ _) pid hpid)]
      by_cases hk : k0 = sid
      · subst hk
        rw [dlookup_cons, if_pos rfl] at hl
        obtain rfl := Option.some.inj hl
        have hfresh : ∀ r ∈ rest.flatMap (fun kv => kv.2.map (fun pid =>
            ({ setup_id := kv.1, portfolio_id := pid } : MappingRow))), r.setup_id ≠ k0 := by
          intro r hr
          obtain ⟨kv2, hkv2, hr2⟩ := List.mem_flatMap.1 hr
          obtain ⟨pid2, _, rfl⟩ := List.mem_map.1 hr2
          intro hc
          exact hnd1.1 (hc ▸ List.mem_map_of_mem Prod.fst hkv2)
        rw [mapFstFold_lookup_of_fresh S P _ _ k0 hfresh, dlookup_dinsert_self]
        rw [hg0] at hg
        obtain rfl := Option.some.inj hg
        rfl
      · rw [dlookup_cons, if_neg hk] at hl
        refine ih (dinsert a1 k0 (g0 ++ l0)) hnd1.2
          (fun kv2 hkv2 pid hpid => hcond kv2 (List.mem_cons_of_mem _ hkv2) pid hpid)
          ?_ sid lst g hl ?_
        · intro s hs
          by_cases hks : k0 = s
          · subst hks
            rw [dlookup_dinsert_self]
            rfl
          · rw [dlookup_dinsert_ne _ _ _ _ hks]
            exact hall s (by rw [dkeys_cons]; exact List.mem_cons_of_mem _ hs)
        · rw [dlookup_dinsert_ne _ _ _ _ hk]
          exact hg

theorem loadMappingFold_p2s_isSome (S : Dict String PortfolioSetup)
    (P : Dict String Portfolio) :
    ∀ (rows : List MappingRow) (acc : Dict String (List String) × Dict String String)
      (pid : String),
      ((∃ r ∈ rows, r.portfolio_id = pid
          ∧ ((dlookup S r.setup_id).isSome && (dlookup P r.portfolio_id).isSome) = true)
        ∨ (dlookup acc.2 pid).isSome = true) →
      (dlookup (rows.foldl (loadMappingStep S P) acc).2 pid).isSome = true := by
  intro rows
  induction rows with
  | nil =>
      intro acc pid h
      rcases h with ⟨r, hr, _⟩ | h2
      · exact absurd hr (List.not_mem_nil r)
      · exact h2
  | cons r rest ih =>
      intro acc pid h
      rw [List.foldl_cons]
      rcases h with ⟨r2, hr2, hpid, hcond⟩ | h2
      · rcases List.mem_cons.1 hr2 with hEq | hm
        · subst hEq
          refine ih _ pid (Or.inr ?_)
          unfold loadMappingStep
          rw [if_pos hcond]
          dsimp only
          subst hpid
          rw [dlookup_dinsert_self]
          rfl
        · exact ih _ pid (Or.inl ⟨r2, hm, hpid, hcond⟩)
      · refine ih _ pid (Or.inr ?_)
        unfold loadMappingStep
        split
        · dsimp only
          by_cases hq : r.portfolio_id = pid
          · subst hq
            rw [dlookup_dinsert_self]
            rfl
          · rw [dlookup_dinsert_ne _ _ _ _ hq]
            exact h2
        · exact h2

/-- The four persisted row-sets _save writes for a store already at the
enforcement fixpoint. -/
def c2rows (st : StoreState) : PersistedRows :=
  { portfolios := buildPortfoliosRows st
    portfolio_symbols := buildSymbolsRows st
    setups := buildSetupsRows st
    setup_portfolios := buildMappingRows st }

/-- The persisted row of one portfolio. -/
def portfolioRowOf (pf : Portfolio) : PortfolioRow :=
  { id := pf.id
    name := some pf.name
    description := some (pf.description.getD "")
    allocation_percent := some pf.allocation_percent
    start_date := some pf.start_date
    created_at := some pf.created_at
    updated_at := some pf.updated_at }

/-- Claim C2: saving a well-formed store and loading the persisted rows
reproduces the same portfolio ids, allocation percentages, symbol
weights, setup ids and memberships. -/
theorem claim_C2_roundtrip (st : StoreState) (now : Int) (dId fId : String)
    (hfix : enforceSetupConstraints st = st)
    (hndP : (dkeys st.portfolios).Nodup)
    (hndS : (dkeys st.setups).Nodup)
    (hndPS : (dkeys st.portfolio_symbols).Nodup)
    (hndSP : (dkeys st.setup_portfolios).Nodup)
    (hids : ∀ kv ∈ st.portfolios, kv.2.id = kv.1)
    (hsids : ∀ kv ∈ st.setups, kv.2.id = kv.1)
    (hup : ∀ kv ∈ st.portfolio_symbols, (dkeys kv.2).Nodup ∧ ∀ s ∈ dkeys kv.2, pyUpper s = s)
    (hspk : dkeys st.setup_portfolios = dkeys st.setups)
    (hne : st.setups ≠ [])
    (hmem : ∀ pid ∈ dkeys st.portfolios, ∃ sid ∈ dkeys st.setups,
        pid ∈ (dlookup st.setup_portfolios sid).getD []) :
    dkeys (loadStore (saveStore st).2 now dId fId).portfolios = dkeys st.portfolios
    ∧ (∀ pid pf, dlookup st.portfolios pid = some pf →
        ∃ pf2, dlookup (loadStore (saveStore st).2 now dId fId).portfolios pid = some pf2
          ∧ pf2.id = pf.id ∧ pf2.allocation_percent = pf.allocation_percent)
    ∧ (∀ pid, (dlookup (loadStore (saveStore st).2 now dId fId).portfolio_symbols pid).getD []
        = (dlookup st.portfolio_symbols pid).getD [])
    ∧ dkeys (loadStore (saveStore st).2 now dId fId).setups = dkeys st.setups
    ∧ (∀ sid ∈ dkeys st.setups,
        (dlookup (loadStore (saveStore st).2 now dId fId).setup_portfolios sid).getD []
          = (dlookup st.setup_portfolios sid).getD []) := by
  have hsave : (saveStore st).2 = c2rows st := by
    unfold saveStore c2rows
    dsimp only
    rw [hfix]
  rw [hsave]
  have hidmap : (buildPortfoliosRows st).map (fun r => r.id) = dkeys st.portfolios := by
    unfold buildPortfoliosRows
    rw [List.map_map]
    exact List.map_congr_left hids
  have hndPid : ((buildPortfoliosRows st).map (fun r => r.id)).Nodup := by
    rw [hidmap]
    exact hndP
  have hsidmap : (buildSetupsRows st).map (fun r => r.id) = dkeys st.setups := by
    unfold buildSetupsRows
    rw [List.map_map]
    exact List.map_congr_left hsids
  have hndSid : ((buildSetupsRows st).map (fun r => r.id)).Nodup := by
    rw [hsidmap]
    exact hndS
  have h1' : buildSetupsRows st ≠ [] := by
    intro hc
    unfold buildSetupsRows at hc
    exact hne (List.map_eq_nil_iff.1 hc)
  have hpairEq := loadSetupsFold_eq (utcNow now) (buildSetupsRows st) ([], []) hndSid
    (fun r _ => List.not_mem_nil _) (fun r _ => List.not_mem_nil _)
  rw [List.nil_append, List.nil_append] at hpairEq
  have hS0 : ((buildSetupsRows st).foldl (loadSetupsStep (utcNow now)) ([], [])).1
      = (buildSetupsRows st).map (fun r => (r.id, loadSetupEntry (utcNow now) r)) := by
    rw [hpairEq]
  have hSP0 : ((buildSetupsRows st).foldl (loadSetupsStep (utcNow now)) ([], [])).2
      = (buildSetupsRows st).map (fun r => (r.id, ([] : List String))) := by
    rw [hpairEq]
  have hkeysS0 : dkeys ((buildSetupsRows st).foldl (loadSetupsStep (utcNow now)) ([], [])).1
      = dkeys st.setups := by
    rw [hS0]
    refine Eq.trans ?_ hsidmap
    unfold dkeys
    rw [List.map_map]
    exact List.map_congr_left (fun r _ => rfl)
  have h2' : ((buildSetupsRows st).foldl (loadSetupsStep (utcNow now)) ([], [])).1 ≠ [] := by
    intro hc
    rw [hS0] at hc
    exact h1' (List.map_eq_nil_iff.1 hc)
  have hsm : loadSymbolMap (buildSymbolsRows st)
      = st.portfolio_symbols.filter (fun kv => !kv.2.isEmpty) :=
    loadSymbolMap_roundtrip st.portfolio_symbols hndPS hup
  have hP0 : loadPortfolios (loadSymbolMap (buildSymbolsRows st)) (utcNow now)
        (buildPortfoliosRows st)
      = (buildPortfoliosRows st).map (fun r =>
          (r.id, loadPortfolioEntry (loadSymbolMap (buildSymbolsRows st)) (utcNow now) r)) :=
    loadPortfolios_eq_map _ _ _ hndPid
  have hkeysP0 : dkeys (loadPortfolios (loadSymbolMap (buildSymbolsRows st)) (utcNow now)
        (buildPortfoliosRows st)) = dkeys st.portfolios := by
    rw [hP0]
    refine Eq.trans ?_ hidmap
    unfold dkeys
    rw [List.map_map]
    exact List.map_congr_left (fun r _ => rfl)
  have hspfix : ∀ sid ∈ dkeys st.setups,
      dlookup st.setup_portfolios sid = some (prunedMembership st sid) := by
    intro sid hs
    have h := enforce_sp_mem st hndS sid hs
    rw [hfix] at h
    exact h
  have hmemvalid : ∀ sid ∈ dkeys st.setups,
      ∀ pid ∈ (dlookup st.setup_portfolios sid).getD [],
        (dlookup st.portfolios pid).isSome = true := by
    intro sid hs pid hpid
    rw [hspfix sid hs] at hpid
    exact (List.mem_filter.1 ((mem_pySorted _ _).1 hpid)).2
  have hspinit : ∀ sid ∈ dkeys st.setups,
      dlookup ((buildSetupsRows st).foldl (loadSetupsStep (utcNow now)) ([], [])).2 sid
        = some [] := by
    intro sid hs
    rw [hSP0]
    obtain ⟨su, hsu⟩ := Option.isSome_iff_exists.1 ((mem_dkeys_iff_isSome _ _).1 hs)
    have hkv : (sid, su) ∈ st.setups := dlookup_some_mem _ _ _ hsu
    have hid : su.id = sid := hsids (sid, su) hkv
    have hrmem : (sid, ([] : List String))
        ∈ (buildSetupsRows st).map (fun r => (r.id, ([] : List String))) := by
      unfold buildSetupsRows
      rw [List.map_map]
      exact List.mem_map.2 ⟨(sid, su), hkv,
        by show (su.id, ([] : List String)) = (sid, ([] : List String)); rw [hid]⟩
    refine dlookup_of_mem_nodup _ ?_ (sid, ([] : List String)) hrmem
    have hx : dkeys ((buildSetupsRows st).map (fun r => (r.id, ([] : List String))))
        = (buildSetupsRows st).map (fun r => r.id) := by
      unfold dkeys
      rw [List.map_map]
      exact List.map_congr_left (fun r _ => rfl)
    rw [hx, hsidmap]
    exact hndS
  have hcond : ∀ kv ∈ st.setup_portfolios, ∀ pid ∈ kv.2,
      ((dlookup ((buildSetupsRows st).foldl (loadSetupsStep (utcNow now)) ([], [])).1
          kv.1).isSome
        && (dlookup (loadPortfolios (loadSymbolMap (buildSymbolsRows st)) (utcNow now)
              (buildPortfoliosRows st)) pid).isSome) = true := by
    intro kv hkv pid hpid
    have hk0 : kv.1 ∈ dkeys st.setup_portfolios := List.mem_map_of_mem Prod.fst hkv
    have hkmem : kv.1 ∈ dkeys st.setups := hspk ▸ hk0
    have hl : dlookup st.setup_portfolios kv.1 = some kv.2 :=
      dlookup_of_mem_nodup _ hndSP kv hkv
    have hv : (dlookup st.portfolios pid).isSome = true := by
      refine hmemvalid kv.1 hkmem pid ?_
      rw [hl]
      exact hpid
    rw [Bool.and_eq_true]
    constructor
    · exact (mem_dkeys_iff_isSome _ _).1 (hkeysS0.symm ▸ hkmem)
    · exact (mem_dkeys_iff_isSome _ _).1
        (hkeysP0.symm ▸ (mem_dkeys_iff_isSome _ _).2 hv)
  have htri1 : ∀ sid ∈ dkeys st.setups,
      dlookup ((buildMappingRows st).foldl
          (loadMappingStep
            ((buildSetupsRows st).foldl (loadSetupsStep (utcNow now)) ([], [])).1
            (loadPortfolios (loadSymbolMap (buildSymbolsRows st)) (utcNow now)
              (buildPortfoliosRows st)))
          (((buildSetupsRows st).foldl (loadSetupsStep (utcNow now)) ([], [])).2, [])).1 sid
        = some (prunedMembership st sid) := by
    intro sid hs
    rw [loadMappingFold_fst]
    have h := mapFstRegroup
      ((buildSetupsRows st).foldl (loadSetupsStep (utcNow now)) ([], [])).1
      (loadPortfolios (loadSymbolMap (buildSymbolsRows st)) (utcNow now)
        (buildPortfoliosRows st))
      st.setup_portfolios
      ((buildSetupsRows st).foldl (loadSetupsStep (utcNow now)) ([], [])).2
      hndSP hcond
      (fun s hsx => by rw [hspinit s (hspk ▸ hsx)]; rfl)
      sid (prunedMembership st sid) [] (hspfix sid hs) (hspinit sid hs)
    rw [List.nil_append] at h
    exact h
  have hp2sinv := loadMappingFold_inv
    ((buildSetupsRows st).foldl (loadSetupsStep (utcNow now)) ([], [])).1
    (loadPortfolios (loadSymbolMap (buildSymbolsRows st)) (utcNow now)
      (buildPortfoliosRows st))
    (buildMappingRows st)
    (((buildSetupsRows st).foldl (loadSetupsStep (utcNow now)) ([], [])).2, [])
    (fun q s hq => absurd hq (by simp))
  rw [loadStore_eq_loadBase (c2rows st) now dId fId h1' h2']
  have horphan : orphanPass (loadBase (c2rows st) now) = loadBase (c2rows st) now := by
    refine orphanPass_noop _ ?_
    intro pid hpid
    have hpidP : pid ∈ dkeys (loadPortfolios (loadSymbolMap (buildSymbolsRows st))
        (utcNow now) (buildPortfoliosRows st)) := hpid
    have hpid0 : pid ∈ dkeys st.portfolios := hkeysP0 ▸ hpidP
    obtain ⟨sid, hsidmem, hpmem⟩ := hmem pid hpid0
    rcases hlsp : dlookup st.setup_portfolios sid with _ | lst
    · rw [hlsp] at hpmem
      exact absurd hpmem (List.not_mem_nil pid)
    · rw [hlsp] at hpmem
      have hkvSP : (sid, lst) ∈ st.setup_portfolios := dlookup_some_mem _ _ _ hlsp
      have hrow : ({ setup_id := sid, portfolio_id := pid } : MappingRow)
          ∈ buildMappingRows st := by
        unfold buildMappingRows
        exact List.mem_flatMap.2 ⟨(sid, lst), hkvSP, List.mem_map.2 ⟨pid, hpmem, rfl⟩⟩
      have hcondrow := hcond (sid, lst) hkvSP pid hpmem
      have hps := loadMappingFold_p2s_isSome
        ((buildSetupsRows st).foldl (loadSetupsStep (utcNow now)) ([], [])).1
        (loadPortfolios (loadSymbolMap (buildSymbolsRows st)) (utcNow now)
          (buildPortfoliosRows st))
        (buildMappingRows st)
        (((buildSetupsRows st).foldl (loadSetupsStep (utcNow now)) ([], [])).2, [])
        pid (Or.inl ⟨{ setup_id := sid, portfolio_id := pid }, hrow, rfl, hcondrow⟩)
      obtain ⟨s2, hs2⟩ := Option.isSome_iff_exists.1 hps
      exact ⟨s2, hs2, (hp2sinv pid s2 hs2).1⟩
  rw [horphan]
  have hndS0 : (dkeys (loadBase (c2rows st) now).setups).Nodup := by
    show (dkeys ((buildSetupsRows st).foldl (loadSetupsStep (utcNow now)) ([], [])).1).Nodup
    rw [hkeysS0]
    exact hndS
  refine ⟨?_, ?_, ?_, ?_, ?_⟩
  · rw [(enforce_portfolios _).1]
    exact hkeysP0
  · intro pid pf hpf
    have hkvmem : (pid, pf) ∈ st.portfolios := dlookup_some_mem _ _ _ hpf
    have hpfid : pf.id = pid := hids (pid, pf) hkvmem
    have hrowmem : portfolioRowOf pf ∈ buildPortfoliosRows st := by
      unfold buildPortfoliosRows
      exact List.mem_map_of_mem _ hkvmem
    have hentry : dlookup (loadPortfolios (loadSymbolMap (buildSymbolsRows st)) (utcNow now)
          (buildPortfoliosRows st)) pf.id
        = some (loadPortfolioEntry (loadSymbolMap (buildSymbolsRows st)) (utcNow now)
            (portfolioRowOf pf)) := by
      rw [hP0]
      refine dlookup_of_mem_nodup _ ?_ _ (List.mem_map_of_mem _ hrowmem)
      have hx : dkeys ((buildPortfoliosRows st).map (fun r =>
          (r.id, loadPortfolioEntry (loadSymbolMap (buildSymbolsRows st)) (utcNow now) r)))
          = (buildPortfoliosRows st).map (fun r => r.id) := by
        unfold dkeys
        rw [List.map_map]
        exact List.map_congr_left (fun r _ => rfl)
      rw [hx]
      exact hndPid
    rw [hpfid] at hentry
    obtain ⟨pf2, hl2, he2⟩ := (enforce_portfolios (loadBase (c2rows st) now)).2 pid _ hentry
    exact ⟨pf2, hl2, he2.1, he2.2.2.2.2.1⟩
  · intro pid
    rw [enforce_psym]
    show (dlookup (loadSymbolMap (buildSymbolsRows st)) pid).getD []
      = (dlookup st.portfolio_symbols pid).getD []
    rw [hsm]
    exact dlookup_filter_isEmpty st.portfolio_symbols hndPS pid
  · rw [(enforce_setups _).1]
    exact hkeysS0
  · intro sid hs
    have hsmem : sid ∈ dkeys (loadBase (c2rows st) now).setups := by
      show sid ∈ dkeys ((buildSetupsRows st).foldl (loadSetupsStep (utcNow now)) ([], [])).1
      rw [hkeysS0]
      exact hs
    rw [enforce_sp_mem (loadBase (c2rows st) now) hndS0 sid hsmem, hspfix sid hs]
    show prunedMembership (loadBase (c2rows st) now) sid = prunedMembership st sid
    unfold prunedMembership
    rw [show dlookup (loadBase (c2rows st) now).setup_portfolios sid
        = some (prunedMembership st sid) from htri1 sid hs]
    rw [hspfix sid hs]
    dsimp only [Option.getD]
    have hfleft : (prunedMembership st sid).filter
        (fun pid => (dlookup (loadBase (c2rows st) now).portfolios pid).isSome)
        = prunedMembership st sid := by
      rw [List.filter_eq_self]
      intro pid hpid
      have hv := hmemvalid sid hs pid (by rw [hspfix sid hs]; exact hpid)
      have hkeq : (dlookup (loadBase (c2rows st) now).portfolios pid).isSome
          = (dlookup st.portfolios pid).isSome := by
        refine isSome_eq_of_dkeys_eq _ _ ?_ pid
        exact hkeysP0
      rw [hkeq]
      exact hv
    have hfright : (prunedMembership st sid).filter
        (fun pid => (dlookup st.portfolios pid).isSome) = prunedMembership st sid := by
      rw [List.filter_eq_self]
      intro pid hpid
      exact hmemvalid sid hs pid (by rw [hspfix sid hs]; exact hpid)
    rw [hfleft, hfright]

def c2state : StoreState :=
  { portfolios :=
      [("p", ⟨"p", "P", none, ["A"], 1/2, [("A", 1)], ⟨0, some 0⟩, ⟨0, some 0⟩, ⟨0, some 0⟩⟩)],
    portfolio_symbols := [("p", [("A", 1)])],
    setups :=
      [("s", ⟨"s", "S", none, ⟨0, some 0⟩, ⟨9, some 0⟩, ⟨0, some 0⟩, ⟨0, some 0⟩, ["p"]⟩)],
    setup_portfolios := [("s", ["p"])],
    portfolio_to_setup := [("p", "s")] }

theorem claim_C2_witness :
    dkeys (loadStore (saveStore c2state).2 7 "d" "f").portfolios = dkeys c2state.portfolios
    ∧ (∀ pid, (dlookup (loadStore (saveStore c2state).2 7 "d" "f").portfolio_symbols pid).getD []
        = (dlookup c2state.portfolio_symbols pid).getD [])
    ∧ dkeys (loadStore (saveStore c2state).2 7 "d" "f").setups = dkeys c2state.setups
    ∧ (∀ sid ∈ dkeys c2state.setups,
        (dlookup (loadStore (saveStore c2state).2 7 "d" "f").setup_portfolios sid).getD []
          = (dlookup c2state.setup_portfolios sid).getD []) := by
  have h := claim_C2_roundtrip c2state 7 "d" "f"
    (by with_unfolding_all decide) (by with_unfolding_all decide)
    (by with_unfolding_all decide) (by with_unfolding_all decide)
    (by with_unfolding_all decide) (by with_unfolding_all decide)
    (by with_unfolding_all decide) (by with_unfolding_all decide)
    (by with_unfolding_all decide) (by with_unfolding_all decide)
    (by with_unfolding_all decide)
  exact ⟨h.1, h.2.2.1, h.2.2.2.1, h.2.2.2.2⟩

/-! ### Claim C4 and C5: strict alignment and base normalization -/

theorem computePoint_isSome_prices (weights : Dict String ℚ) (pmaps : Dict String (Dict Int ℚ))
    (t : Int) :
    ∀ (syms : List String) (comps : Dict String ℚ) (total : ℚ) (c : Dict String ℚ) (tot : ℚ),
      computePoint weights pmaps t syms comps total = some (c, tot) →
      ∀ s ∈ syms, (dlookup ((dlookup pmaps s).getD []) t).isSome := by
  intro syms
  induction syms with
  | nil => intro _ _ _ _ _ s hs; exact absurd hs (List.not_mem_nil s)
  | cons s0 rest ih =>
      intro comps total c tot h s hs
      rcases hpr : dlookup ((dlookup pmaps s0).getD []) t with _ | price
      · rw [computePoint, hpr] at h
        exact absurd h (by simp)
      · rw [computePoint, hpr] at h
        rcases List.mem_cons.1 hs with hEq | hmem
        · subst hEq
          simp [hpr]
        · exact ih _ _ c tot h s hmem

theorem computePoint_components (weights : Dict String ℚ) (pmaps : Dict String (Dict Int ℚ))
    (t : Int) :
    ∀ (syms : List String) (comps : Dict String ℚ) (total : ℚ) (c : Dict String ℚ) (tot : ℚ),
      computePoint weights pmaps t syms comps total = some (c, tot) →
      (∀ s ∈ syms, ∃ pr,
          dlookup ((dlookup pmaps s).getD []) t = some pr
          ∧ dlookup c s = some ((dlookup weights s).getD 0 * pr))
      ∧ (∀ s, s ∉ syms → dlookup c s = dlookup comps s) := by
  intro syms
  induction syms with
  | nil =>
      intro comps total c tot h
      rw [computePoint] at h
      obtain ⟨hc, _⟩ := Prod.mk.injEq .. ▸ (Option.some.injEq .. ▸ h)
      refine ⟨fun s hs => absurd hs (List.not_mem_nil s), fun s _ => by rw [← hc]⟩
  | cons s0 rest ih =>
      intro comps total c tot h
      rcases hpr : dlookup ((dlookup pmaps s0).getD []) t with _ | price
      · rw [computePoint, hpr] at h
        exact absurd h (by simp)
      · rw [computePoint, hpr] at h
        obtain ⟨hin, hout⟩ := ih _ _ c tot h
        constructor
        · intro s hs
          rcases List.mem_cons.1 hs with hEq | hmem
          · subst hEq
            by_cases hsr : s ∈ rest
            · exact hin s hsr
            · refine ⟨price, hpr, ?_⟩
              rw [hout s hsr, dlookup_dinsert_self]
          · exact hin s hmem
        · intro s hs
          rw [List.mem_cons] at hs
          push_neg at hs
          rw [hout s hs.2, dlookup_dinsert_ne _ _ _ _ (Ne.symm hs.1)]

theorem histLoop_mem_exists (symbols : List String) (weights : Dict String ℚ)
    (pmaps : Dict String (Dict Int ℚ)) :
    ∀ (l : List Int) (base : Option ℚ) (p : HistoryPoint),
      p ∈ histLoop symbols weights pmaps l base →
      ∃ c tot, computePoint weights pmaps p.date symbols [] 0 = some (c, tot) ∧ 0 < tot := by
  intro l
  induction l with
  | nil => intro base p hp; exact absurd hp (by simp [histLoop])
  | cons t rest ih =>
      intro base p hp
      rw [histLoop] at hp
      rcases hcp : computePoint weights pmaps t symbols [] 0 with _ | ct
      · rw [hcp] at hp
        exact ih base p hp
      · obtain ⟨c, tot⟩ := ct
        rw [hcp] at hp
        dsimp only at hp
        by_cases hle : tot ≤ 0
        · rw [if_pos hle] at hp
          exact ih base p hp
        · rw [if_neg hle] at hp
          rcases List.mem_cons.1 hp with hEq | hmem
          · subst hEq
            exact ⟨c, tot, hcp, not_le.1 hle⟩
          · exact ih _ p hmem

theorem histLoop_some_char (symbols : List String) (weights : Dict String ℚ)
    (pmaps : Dict String (Dict Int ℚ)) :
    ∀ (l : List Int) (b0 : ℚ) (p : HistoryPoint),
      p ∈ histLoop symbols weights pmaps l (some b0) →
      ∃ c tot, computePoint weights pmaps p.date symbols [] 0 = some (c, tot) ∧ 0 < tot
        ∧ p.components = c ∧ p.value = (if b0 = 0 then 1 else tot / b0) := by
  intro l
  induction l with
  | nil => intro b0 p hp; exact absurd hp (by simp [histLoop])
  | cons t rest ih =>
      intro b0 p hp
      rw [histLoop] at hp
      rcases hcp : computePoint weights pmaps t symbols [] 0 with _ | ct
      · rw [hcp] at hp
        exact ih b0 p hp
      · obtain ⟨c, tot⟩ := ct
        rw [hcp] at hp
        dsimp only at hp
        by_cases hle : tot ≤ 0
        · rw [if_pos hle] at hp
          exact ih b0 p hp
        · rw [if_neg hle] at hp
          rcases List.mem_cons.1 hp with hEq | hmem
          · subst hEq
            exact ⟨c, tot, hcp, not_le.1 hle, rfl, rfl⟩
          · exact ih b0 p hmem

theorem histLoop_none_cons (symbols : List String) (weights : Dict String ℚ)
    (pmaps : Dict String (Dict Int ℚ)) :
    ∀ (l : List Int) (p0 : HistoryPoint) (rest : List HistoryPoint),
      histLoop symbols weights pmaps l none = p0 :: rest →
      ∃ c tot l2, computePoint weights pmaps p0.date symbols [] 0 = some (c, tot)
        ∧ 0 < tot ∧ p0.components = c ∧ p0.value = 1
        ∧ rest = histLoop symbols weights pmaps l2 (some tot) := by
  intro l
  induction l with
  | nil => intro p0 rest h; exact absurd h (by simp [histLoop])
  | cons t ltail ih =>
      intro p0 rest h
      rw [histLoop] at h
      rcases hcp : computePoint weights pmaps t symbols [] 0 with _ | ct
      · rw [hcp] at h
        exact ih p0 rest h
      · obtain ⟨c, tot⟩ := ct
        rw [hcp] at h
        dsimp only at h
        by_cases hle : tot ≤ 0
        · rw [if_pos hle] at h
          exact ih p0 rest h
        · rw [if_neg hle] at h
          have hpos : 0 < tot := not_le.1 hle
          have htne : tot ≠ 0 := ne_of_gt hpos
          obtain ⟨hhd, htl⟩ := List.cons.injEq .. ▸ h
          refine ⟨c, tot, ltail, ?_, hpos, ?_, ?_, ?_⟩
          · rw [← hhd]
            exact hcp
          · rw [← hhd]
          · rw [← hhd]
            simp [htne, div_self htne]
          · rw [← htl]
            simp

theorem buildHistory_cases (symbols : List String) (weights : Dict String ℚ)
    (bars : Dict String (List Bar)) :
    buildPortfolioHistory symbols weights bars = []
    ∨ ∃ cds, buildPortfolioHistory symbols weights bars
        = histLoop symbols weights (buildPriceMaps symbols bars) cds none := by
  unfold buildPortfolioHistory
  dsimp only
  split
  · left; rfl
  · split
    · left; rfl
    · split
      · left; rfl
      · right; exact ⟨_, rfl⟩

/-- Claim C4: every emitted history point's timestamp has a parsed price
for every requested symbol and a strictly positive weighted sum; a
timestamp at which any requested symbol lacks a price is never emitted. -/
theorem claim_C4_strict_alignment (symbols : List String) (weights : Dict String ℚ)
    (bars : Dict String (List Bar)) (p : HistoryPoint)
    (hp : p ∈ buildPortfolioHistory symbols weights bars) :
    (∀ s ∈ symbols, dlookup ((dlookup (buildPriceMaps symbols bars) s).getD []) p.date ≠ none)
    ∧ ∃ c tot, computePoint weights (buildPriceMaps symbols bars) p.date symbols [] 0
          = some (c, tot) ∧ 0 < tot := by
  rcases buildHistory_cases symbols weights bars with hnil | ⟨cds, hEq⟩
  · rw [hnil] at hp
    exact absurd hp (List.not_mem_nil p)
  · rw [hEq] at hp
    obtain ⟨c, tot, hcp, hpos⟩ :=
      histLoop_mem_exists symbols weights (buildPriceMaps symbols bars) cds none p hp
    refine ⟨?_, c, tot, hcp, hpos⟩
    intro s hs
    have := computePoint_isSome_prices weights (buildPriceMaps symbols bars) p.date
      symbols [] 0 c tot hcp s hs
    intro hc
    rw [hc] at this
    exact absurd this (by simp)

theorem claim_C4_witness :
    (⟨1, 1, [("A", 50), ("B", 25)]⟩ : HistoryPoint) ∈
        buildPortfolioHistory ["A", "B"] [("A", (1:ℚ)/2), ("B", 1/2)]
          [("A", [⟨some 1, some 100⟩, ⟨some 2, some 110⟩]),
           ("B", [⟨some 1, some 50⟩, ⟨some 2, some 40⟩])]
    ∧ (∀ s ∈ (["A", "B"] : List String),
        dlookup ((dlookup (buildPriceMaps ["A", "B"]
            [("A", [⟨some 1, some 100⟩, ⟨some 2, some 110⟩]),
             ("B", [⟨some 1, some 50⟩, ⟨some 2, some 40⟩])]) s).getD [])
          (⟨1, 1, [("A", 50), ("B", 25)]⟩ : HistoryPoint).date ≠ none) := by
  have hp : (⟨1, 1, [("A", 50), ("B", 25)]⟩ : HistoryPoint) ∈
      buildPortfolioHistory ["A", "B"] [("A", (1:ℚ)/2), ("B", 1/2)]
        [("A", [⟨some 1, some 100⟩, ⟨some 2, some 110⟩]),
         ("B", [⟨some 1, some 50⟩, ⟨some 2, some 40⟩])] := by
    with_unfolding_all decide
  exact ⟨hp, (claim_C4_strict_alignment _ _ _ _ hp).1⟩

/-- Claim C5: when the history is non-empty, the first point's weighted
sum is the normalization base, every point's value is its weighted sum
over that base (the first point's value is exactly 1), and every point's
components record each requested symbol's raw weight-times-price
contribution. -/
theorem claim_C5_base_normalization (symbols : List String) (weights : Dict String ℚ)
    (bars : Dict String (List Bar)) (p0 : HistoryPoint) (rest : List HistoryPoint)
    (h : buildPortfolioHistory symbols weights bars = p0 :: rest) :
    p0.value = 1
    ∧ ∃ c0 base, computePoint weights (buildPriceMaps symbols bars) p0.date symbols [] 0
          = some (c0, base)
        ∧ 0 < base
        ∧ ∀ p ∈ buildPortfolioHistory symbols weights bars,
            ∃ c tot, computePoint weights (buildPriceMaps symbols bars) p.date symbols [] 0
                = some (c, tot)
              ∧ p.value = tot / base ∧ p.components = c
              ∧ ∀ s ∈ symbols, ∃ pr,
                  dlookup ((dlookup (buildPriceMaps symbols bars) s).getD []) p.date = some pr
                  ∧ dlookup c s = some ((dlookup weights s).getD 0 * pr) := by
  rcases buildHistory_cases symbols weights bars with hnil | ⟨cds, hEq⟩
  · rw [hnil] at h
    exact absurd h (by simp)
  · rw [hEq] at h
    obtain ⟨c0, tot0, l2, hcp0, hpos0, hcomp0, hval0, hrest⟩ :=
      histLoop_none_cons symbols weights (buildPriceMaps symbols bars) cds p0 rest h
    have hb0 : tot0 ≠ 0 := ne_of_gt hpos0
    refine ⟨hval0, c0, tot0, hcp0, hpos0, ?_⟩
    intro p hp
    rw [hEq, h] at hp
    have main : ∃ c tot,
        computePoint weights (buildPriceMaps symbols bars) p.date symbols [] 0 = some (c, tot)
        ∧ p.value = tot / tot0 ∧ p.components = c := by
      rcases List.mem_cons.1 hp with hpEq | hpmem
      · subst hpEq
        refine ⟨c0, tot0, hcp0, ?_, hcomp0⟩
        rw [hval0, div_self hb0]
      · rw [hrest] at hpmem
        obtain ⟨c, tot, hcp, hpos, hcomps, hval⟩ :=
          histLoop_some_char symbols weights (buildPriceMaps symbols bars) l2 tot0 p hpmem
        refine ⟨c, tot, hcp, ?_, hcomps⟩
        rw [hval, if_neg hb0]
    obtain ⟨c, tot, hcp, hval, hcomps⟩ := main
    refine ⟨c, tot, hcp, hval, hcomps, ?_⟩
    intro s hs
    exact (computePoint_components weights (buildPriceMaps symbols bars) p.date
      symbols [] 0 c tot hcp).1 s hs

theorem claim_C5_witness :
    buildPortfolioHistory ["A", "B"] [("A", (1:ℚ)/2), ("B", 1/2)]
        [("A", [⟨some 1, some 100⟩, ⟨some 3, some 110⟩]),
         ("B", [⟨some 1, some 50⟩, ⟨some 3, some 70⟩])]
      = [⟨1, 1, [("A", 50), ("B", 25)]⟩, ⟨3, 6/5, [("A", 55), ("B", 35)]⟩]
    ∧ (⟨1, 1, [("A", 50), ("B", 25)]⟩ : HistoryPoint).value = 1 := by
  have h : buildPortfolioHistory ["A", "B"] [("A", (1:ℚ)/2), ("B", 1/2)]
      [("A", [⟨some 1, some 100⟩, ⟨some 3, some 110⟩]),
       ("B", [⟨some 1, some 50⟩, ⟨some 3, some 70⟩])]
      = [⟨1, 1, [("A", 50), ("B", 25)]⟩, ⟨3, 6/5, [("A", 55), ("B", 35)]⟩] := by
    with_unfolding_all decide
  exact ⟨h, (claim_C5_base_normalization _ _ _ _ _ h).1⟩

theorem claim_C7_witness :
    (["A", "B", "C"] : List String) ≠ []
    ∧ (∀ s ∈ (["A", "B", "C"] : List String),
        dlookup (normalizeAllocations ["A", "B", "C"] none) s
          = some (round6 (1 / ((["A", "B", "C"] : List String).length : ℚ))))
    ∧ |sumValues (normalizeAllocations ["A", "B", "C"] none) - 1| ≤ 1/10000 := by
  refine ⟨by decide, (claim_C7_equal_split ["A", "B", "C"] [] (by decide)).1, ?_⟩
  exact (claim_C7_equal_split ["A", "B", "C"] [] (by decide)).2.2 (by decide) (by decide)

end PortfolioMap
